import Mathlib

/-!
# graphgrep: a shallow embedding of `graphgrep.c`

The program is a benchmarking harness around three Hyperscan calls
(`hs_compile_graph`, `hs_alloc_scratch`, `hs_scan`).  Everything outside the
file (the C library, the operating system, Hyperscan, the clock) is an
oracle, collected in `World`.  Every function of the file returns the list of
observable events it produces (output lines, library calls, acquisitions and
releases of resources) together with its C return value.

Conventions.
* `unsigned int` values are `Nat` reduced modulo `2 ^ 32` where the source
  converts; `long`, `int` and `clock_t` values are `Int`.
* `double` arithmetic is kept abstract (`DoubleOps`): the harness only adds,
  multiplies, divides and prints doubles.
* The read loop of `readInputData` may spin forever, so it takes a budget of
  iterations; the result `unfinished` means that the budget was used up.
-/

namespace GraphGrep

/-- Largest value of a 32-bit `unsigned int` (`UINT_MAX` of `limits.h`). -/
def UINT_MAX : Nat := 4294967295

/-- Hyperscan status code for success. -/
def HS_SUCCESS : Int := 0

/-- Hyperscan status code returned by a scan that the callback stopped. -/
def HS_SCAN_TERMINATED : Int := -3

/-- The operations on `double` the harness uses, and the platform constant
`CLOCKS_PER_SEC` of `time.h`.  `fmt` is the rendering of `%f`. -/
structure DoubleOps (F : Type) where
  ofInt : Int → F
  add : F → F → F
  mul : F → F → F
  div : F → F → F
  fmt : F → String
  CLOCKS_PER_SEC : Int

/-- Arguments of one invocation of the match callback. -/
structure MatchEvent where
  id : Nat
  from_ : Nat
  to_ : Nat
  flags : Nat

/-- The environment of one run of the program.

* `argv i` is `argv[i]`; `atoi` is the C library function.
* `hs_compile_graph fn` is the status code and, on failure, the message of
  the compile error object.
* `fopen fn`, `fseekEnd`, `fseekSet` are `none` when the call succeeds and
  `some e` when it fails with `strerror(errno) = e`.
* `ftell` is the value returned by `ftell`, `ftellErr` the error string when
  that value is negative.
* `malloc n` tells whether `malloc(n)` returns a non-null pointer.
* `fread k n` is the answer to the `k`-th call of `fread`, asking for `n`
  bytes: the count returned and whether `ferror` is non-zero afterwards.
* `hs_scan k len` is the `k`-th scan: the matches the engine finds, in
  delivery order, and the status it returns when the callback lets it run to
  the end.
* `clock k` is the value of the `k`-th call of `clock()`. -/
structure World where
  argc : Int
  argv : Nat → String
  atoi : String → Int
  hs_compile_graph : String → Int × String
  fopen : String → Option String
  fseekEnd : Option String
  ftell : Int
  ftellErr : String
  fseekSet : Option String
  malloc : Nat → Bool
  fread : Nat → Nat → Nat × Bool
  hs_alloc_scratch : Int
  hs_scan : Nat → Nat → List MatchEvent × Int
  clock : Nat → Int

/-- The resources the program holds: the compile error object, the database,
the input `FILE` handle, the input buffer and the scratch space. -/
inductive Resource where
  | compileError
  | database
  | file
  | inputData
  | scratch
  deriving DecidableEq, Repr

/-- One `printf`/`fprintf` of the source, with its arguments. -/
inductive Msg (F : Type) where
  | matchAt (to_ : Nat)
  | errOpen (inputFN e : String)
  | errSeek (inputFN e : String)
  | errFtell (e : String)
  | warnClip (dataLen : Int)
  | errEmpty (inputFN : String)
  | errMalloc (dataLen : Int)
  | errFread
  | usage (argv0 : String)
  | compiling
  | errCompile (graphFN message : String)
  | reading
  | allocating
  | errScratch
  | simulating
  | errScan
  | timeElapsed (elapsed : F)
  | average (value : F)
  deriving DecidableEq

/-- The text a message prints, format string by format string. -/
def Msg.render {F : Type} (ops : DoubleOps F) : Msg F → String
  | .matchAt to_ => "Match at offset " ++ toString to_ ++ "\n"
  | .errOpen fn e => "ERROR: unable to open file \"" ++ fn ++ "\": " ++ e ++ "\n"
  | .errSeek fn e => "ERROR: unable to seek file \"" ++ fn ++ "\": " ++ e ++ "\n"
  | .errFtell e => "ERROR: ftell() failed: " ++ e ++ "\n"
  | .warnClip n => "WARNING: clipping data to " ++ toString n ++ " bytes\n"
  | .errEmpty fn => "ERROR: input file \"" ++ fn ++ "\" is empty\n"
  | .errMalloc n => "ERROR: unable to malloc " ++ toString n ++ " bytes\n"
  | .errFread => "ERROR: fread() failed\n"
  | .usage a => "Usage: " ++ a ++ " <graph file name> <input file> <runs>\n"
  | .compiling => "Compiling graph...\n"
  | .errCompile fn m => "ERROR: Unable to compile graph file \"" ++ fn ++ "\": " ++ m ++ "\n"
  | .reading => "Reading input data...\n"
  | .allocating => "Allocating scratch...\n"
  | .errScratch => "ERROR: Unable to allocate scratch space. Exiting.\n"
  | .simulating => "Simulating graph on input data with Hyperscan...\n"
  | .errScan => "ERROR: Unable to scan input buffer. Exiting.\n"
  | .timeElapsed v => "Time elapsed in ms: " ++ ops.fmt v ++ "\n"
  | .average v => "Average time elapsed in ms: " ++ ops.fmt v ++ "\n"

/-- What a run does that can be observed from outside.

`out`/`err` are lines on standard output / standard error.  `acquire r` is
recorded when a call hands a resource to the program (`fopen`, `malloc`,
`hs_compile_graph`, `hs_alloc_scratch` succeeding; `hs_compile_graph` failing
hands over the compile error object); `release r` is the matching `fclose`,
`free`, `hs_free_database`, `hs_free_scratch` or `hs_free_compile_error`.
The other constructors record the call of that name; `fopen` carries the
answer of the oracle (`none`: the stream is open). -/
inductive Event (F : Type) where
  | out (m : Msg F)
  | err (m : Msg F)
  | acquire (r : Resource)
  | release (r : Resource)
  | hs_compile_graph (graphFN : String)
  | readInputData (inputFN : String)
  | fopen (inputFN : String) (failure : Option String)
  | fseek
  | ftell (dataLen : Int)
  | malloc (size : Nat)
  | fread (bytesLeft bytesRead : Nat)
  | hs_alloc_scratch
  | hs_scan (length : Nat)
  | clock
  deriving DecidableEq

/-- The callback `eventHandler`: prints the end offset of the match and returns 0. -/
def eventHandler {F : Type} (_id : Nat) (_from : Nat) (to_ : Nat) (_flags : Nat) :
    List (Event F) × Int :=
  ([.out (.matchAt to_)], 0)

/-- How the engine drives a callback: the matches are handed over one by one,
and a non-zero return value of the callback stops the scan.  The result is
the events the callback produced and whether the scan was stopped. -/
def deliver {F : Type} (cb : Nat → Nat → Nat → Nat → List (Event F) × Int) :
    List MatchEvent → List (Event F) × Bool
  | [] => ([], false)
  | m :: ms =>
    let r := cb m.id m.from_ m.to_ m.flags
    if r.2 ≠ 0 then (r.1, true)
    else
      let rest := deliver cb ms
      (r.1 ++ rest.1, rest.2)

/-- The `k`-th call `hs_scan(database, inputData, length, 0, scratch,
eventHandler, NULL)`: the events of the call and its status code. -/
def hs_scan {F : Type} (w : World) (k length : Nat) : List (Event F) × Int :=
  let d := deliver eventHandler (w.hs_scan k length).1
  (.hs_scan length :: d.1, if d.2 then HS_SCAN_TERMINATED else (w.hs_scan k length).2)

/-- How the read loop of `readInputData` ended. -/
inductive LoopResult where
  | filled
  | failed
  | unfinished
  deriving DecidableEq, Repr

/-- The loop `while (bytesLeft) { ... }` of `readInputData` (lines 105-115),
with a budget of iterations.  `k` counts the calls of `fread` made so far.
`fread` never returns more than it was asked for, which the `min` records.
On `ferror` the loop prints the diagnostic, frees the buffer and closes the
file. -/
def readLoop {F : Type} (w : World) : Nat → Nat → Nat → List (Event F) × LoopResult
  | _, _, 0 => ([], .filled)
  | 0, _, _ + 1 => ([], .unfinished)
  | fuel + 1, k, b + 1 =>
    let bytesLeft := b + 1
    let bytesRead := min (w.fread k bytesLeft).1 bytesLeft
    if (w.fread k bytesLeft).2 then
      ([.fread bytesLeft bytesRead, .err .errFread, .release .inputData, .release .file],
        .failed)
    else
      let rest := readLoop w fuel (k + 1) (bytesLeft - bytesRead)
      (.fread bytesLeft bytesRead :: rest.1, rest.2)

/-- What `readInputData` returns: a buffer with the value stored in
`*length`, `NULL`, or nothing yet when the budget of the read loop is used
up. -/
inductive ReadResult where
  | data (length : Nat)
  | null
  | unfinished
  deriving DecidableEq, Repr

/-- Lines 96-120 of `readInputData`: `malloc`, the read loop, `fclose` and
the store to `*length`, for the (already clipped) `dataLen`. -/
def readInputDataBody {F : Type} (w : World) (fuel : Nat) (dataLen : Nat) :
    List (Event F) × ReadResult :=
  if w.malloc dataLen = false then
    ([.malloc dataLen, .err (.errMalloc dataLen), .release .file], .null)
  else
    let loop := readLoop w fuel 0 dataLen
    match loop.2 with
    | .failed => (.malloc dataLen :: .acquire .inputData :: loop.1, .null)
    | .unfinished => (.malloc dataLen :: .acquire .inputData :: loop.1, .unfinished)
    | .filled =>
      (.malloc dataLen :: .acquire .inputData :: loop.1 ++ [.release .file],
        .data (dataLen % 2 ^ 32))

/-- The function `readInputData` (lines 54-121). -/
def readInputData {F : Type} (w : World) (fuel : Nat) (inputFN : String) :
    List (Event F) × ReadResult :=
  match w.fopen inputFN with
  | some e => ([.fopen inputFN (some e), .err (.errOpen inputFN e)], .null)
  | none =>
    match w.fseekEnd with
    | some e =>
      ([.fopen inputFN none, .acquire .file, .fseek, .err (.errSeek inputFN e), .release .file],
        .null)
    | none =>
      let dataLen := w.ftell
      if dataLen < 0 then
        ([.fopen inputFN none, .acquire .file, .fseek, .ftell dataLen,
          .err (.errFtell w.ftellErr), .release .file], .null)
      else
        match w.fseekSet with
        | some e =>
          ([.fopen inputFN none, .acquire .file, .fseek, .ftell dataLen, .fseek,
            .err (.errSeek inputFN e), .release .file], .null)
        | none =>
          if dataLen.toNat > UINT_MAX then
            let body := readInputDataBody w fuel UINT_MAX
            ([.fopen inputFN none, .acquire .file, .fseek, .ftell dataLen, .fseek,
              .out (.warnClip UINT_MAX)] ++ body.1, body.2)
          else if dataLen = 0 then
            ([.fopen inputFN none, .acquire .file, .fseek, .ftell dataLen, .fseek,
              .err (.errEmpty inputFN), .release .file], .null)
          else
            let body := readInputDataBody w fuel dataLen.toNat
            ([.fopen inputFN none, .acquire .file, .fseek, .ftell dataLen, .fseek] ++ body.1,
              body.2)

/-- The elapsed time of one run in milliseconds:
`(double)(stop - start) * 1000.0 / CLOCKS_PER_SEC`. -/
def elapsedMs {F : Type} (ops : DoubleOps F) (start stop : Int) : F :=
  ops.div (ops.mul (ops.ofInt (stop - start)) (ops.ofInt 1000)) (ops.ofInt ops.CLOCKS_PER_SEC)

/-- The benchmark loop `for (int i = 0; i < runs; i++) { ... }` (lines
191-210).  The body reads neither `i` nor `runs`, and the test compares `i`,
converted to `unsigned int`, with `runs`, so the loop repeats its body `runs`
times unless a scan fails: the first argument is the number of iterations
still to do (`runs - i`), the second is `i`, which here only numbers the
calls of the oracles.  (Past `INT_MAX` the increment of `i` is taken to wrap,
as two's complement machines do.)  The result is the events and, when no scan
failed, the final value of `elapsed_average`; `none` is the `return -1` of
line 202. -/
def scanLoop {F : Type} (ops : DoubleOps F) (w : World) (length : Nat) :
    Nat → Nat → F → List (Event F) × Option F
  | 0, _, elapsed_average => ([], some elapsed_average)
  | remaining + 1, i, elapsed_average =>
    let start := w.clock (2 * i)
    let scan : List (Event F) × Int := hs_scan w i length
    if scan.2 ≠ HS_SUCCESS then
      (.clock :: scan.1 ++
        [.err .errScan, .release .scratch, .release .inputData, .release .database], none)
    else
      let stop := w.clock (2 * i + 1)
      let elapsed := elapsedMs ops start stop
      let rest := scanLoop ops w length remaining (i + 1) (ops.add elapsed_average elapsed)
      (.clock :: scan.1 ++ [.clock, .out (.timeElapsed elapsed)] ++ rest.1, rest.2)

/-- The value of `unsigned int runs = atoi(argv[3])`. -/
def runsOf (w : World) : Nat := (w.atoi (w.argv 3) % 2 ^ 32).toNat

/-- What a run of `main` produced: its events and its return value, `none`
when the budget of the read loop was used up before `main` returned. -/
structure Result (F : Type) where
  trace : List (Event F)
  exit : Option Int

/-- Lines 177-220 of `main`: scratch allocation, the benchmark loop, the
average line and the clean-up, for the buffer length `length`. -/
def mainScan {F : Type} (ops : DoubleOps F) (w : World) (length : Nat) : Result F :=
  if w.hs_alloc_scratch ≠ HS_SUCCESS then
    ⟨[.out .allocating, .hs_alloc_scratch, .err .errScratch,
      .release .inputData, .release .database], some (-1)⟩
  else
    let runs := runsOf w
    let loop := scanLoop ops w length runs 0 (ops.ofInt 0)
    match loop.2 with
    | none =>
      ⟨[.out .allocating, .hs_alloc_scratch, .acquire .scratch, .out .simulating] ++ loop.1,
        some (-1)⟩
    | some elapsed_average =>
      ⟨[.out .allocating, .hs_alloc_scratch, .acquire .scratch, .out .simulating] ++ loop.1 ++
        [.out (.average (ops.div elapsed_average (ops.ofInt runs))),
          .release .scratch, .release .inputData, .release .database], some 0⟩

/-- The function `main` (lines 123-221).  `fuel` is the budget of the read loop. -/
def main {F : Type} (ops : DoubleOps F) (w : World) (fuel : Nat) : Result F :=
  if w.argc ≠ 4 then
    ⟨[.err (.usage (w.argv 0))], some (-1)⟩
  else
    let graphFN := w.argv 1
    let inputFN := w.argv 2
    if (w.hs_compile_graph graphFN).1 ≠ HS_SUCCESS then
      ⟨[.out .compiling, .hs_compile_graph graphFN, .acquire .compileError,
        .err (.errCompile graphFN (w.hs_compile_graph graphFN).2),
        .release .compileError], some (-1)⟩
    else
      let read : List (Event F) × ReadResult := readInputData w fuel inputFN
      match read.2 with
      | .unfinished =>
        ⟨[.out .compiling, .hs_compile_graph graphFN, .acquire .database, .out .reading,
          .readInputData inputFN] ++ read.1, none⟩
      | .null =>
        ⟨[.out .compiling, .hs_compile_graph graphFN, .acquire .database, .out .reading,
          .readInputData inputFN] ++ read.1 ++ [.release .database], some (-1)⟩
      | .data length =>
        let rest := mainScan ops w length
        ⟨[.out .compiling, .hs_compile_graph graphFN, .acquire .database, .out .reading,
          .readInputData inputFN] ++ read.1 ++ rest.trace, rest.exit⟩

/-! ## Observations on traces -/

/-- The event is a call of `hs_scan`. -/
def Event.isScan {F : Type} : Event F → Bool
  | .hs_scan _ => true
  | _ => false

/-- The event is a call of `hs_alloc_scratch`. -/
def Event.isAllocScratch {F : Type} : Event F → Bool
  | .hs_alloc_scratch => true
  | _ => false

/-- The event is a call of `hs_compile_graph`. -/
def Event.isCompile {F : Type} : Event F → Bool
  | .hs_compile_graph _ => true
  | _ => false

/-- The event is a call of `readInputData`. -/
def Event.isReadInputData {F : Type} : Event F → Bool
  | .readInputData _ => true
  | _ => false

/-- The event is a line on standard output. -/
def Event.isOut {F : Type} : Event F → Bool
  | .out _ => true
  | _ => false

/-- The event is a "Time elapsed in ms" line on standard output. -/
def Event.isTimeLine {F : Type} : Event F → Bool
  | .out (.timeElapsed _) => true
  | _ => false

/-- The event is an "Average time elapsed in ms" line on standard output. -/
def Event.isAverageLine {F : Type} : Event F → Bool
  | .out (.average _) => true
  | _ => false

/-- The elapsed values printed by the "Time elapsed in ms" lines, in order. -/
def timeValues {F : Type} : List (Event F) → List F
  | [] => []
  | .out (.timeElapsed v) :: es => v :: timeValues es
  | _ :: es => timeValues es

/-- The event is the "input file is empty" diagnostic on standard error. -/
def Event.isEmptyDiagnostic {F : Type} : Event F → Bool
  | .err (.errEmpty _) => true
  | _ => false

/-- The event is a call of `fread`. -/
def Event.isFread {F : Type} : Event F → Bool
  | .fread _ _ => true
  | _ => false

/-- The number of bytes the calls of `fread` in a trace returned in total. -/
def freadBytes {F : Type} : List (Event F) → Nat
  | [] => 0
  | .fread _ bytesRead :: es => bytesRead + freadBytes es
  | _ :: es => freadBytes es

/-- The value of `bytesLeft` after `j` iterations of the read loop in which
`ferror` stayed 0, when the loop is entered with `bytesLeft` bytes to read and
`k` calls of `fread` already made. -/
def bytesLeftAfter (w : World) : Nat → Nat → Nat → Nat
  | _, bytesLeft, 0 => bytesLeft
  | k, bytesLeft, j + 1 =>
    bytesLeftAfter w (k + 1) (bytesLeft - min (w.fread k bytesLeft).1 bytesLeft) j

/-- Every call of `fread` that asks for at least one byte returns at least
one byte or sets the error indicator of the stream. -/
def FreadProgress (w : World) : Prop :=
  ∀ k n, 0 < n → 0 < (w.fread k n).1 ∨ (w.fread k n).2 = true

/-- The event acquires or releases a resource. -/
def Event.isResourceEvent {F : Type} : Event F → Bool
  | .acquire _ => true
  | .release _ => true
  | _ => false

/-- The resources held after a sequence of events, starting from the held
resources `hs`.  The result is `none` when a resource is released that is not
held (a double release, or a release of something never acquired) or acquired
while it is still held (the first handle would be lost). -/
def held {F : Type} : List (Event F) → List Resource → Option (List Resource)
  | [], hs => some hs
  | .acquire r :: es, hs => if r ∈ hs then none else held es (r :: hs)
  | .release r :: es, hs => if r ∈ hs then held es (hs.erase r) else none
  | _ :: es, hs => held es hs

/-- The events `readInputData` can produce. -/
def Event.isReadEvent {F : Type} : Event F → Bool
  | .fopen _ _ => true
  | .fseek => true
  | .ftell _ => true
  | .malloc _ => true
  | .fread _ _ => true
  | .acquire .file => true
  | .release .file => true
  | .acquire .inputData => true
  | .release .inputData => true
  | .err (.errOpen _ _) => true
  | .err (.errSeek _ _) => true
  | .err (.errFtell _) => true
  | .err (.errEmpty _) => true
  | .err (.errMalloc _) => true
  | .err .errFread => true
  | .out (.warnClip _) => true
  | _ => false

/-- The events lines 96-120 of `readInputData` can produce. -/
def Event.isBodyEvent {F : Type} : Event F → Bool
  | .malloc _ => true
  | .fread _ _ => true
  | .release .file => true
  | .acquire .inputData => true
  | .release .inputData => true
  | .err (.errMalloc _) => true
  | .err .errFread => true
  | _ => false

/-- The events lines 177-220 of `main` can produce. -/
def Event.isScanPhaseEvent {F : Type} : Event F → Bool
  | .out .allocating => true
  | .hs_alloc_scratch => true
  | .err .errScratch => true
  | .acquire .scratch => true
  | .out .simulating => true
  | .clock => true
  | .hs_scan _ => true
  | .out (.matchAt _) => true
  | .out (.timeElapsed _) => true
  | .out (.average _) => true
  | .err .errScan => true
  | .release .scratch => true
  | .release .inputData => true
  | .release .database => true
  | _ => false

/-! ## Names for the pieces of a trace -/

/-- The events of `main` from line 140 up to the call of `readInputData`,
when the graph compiles. -/
def startEvents {F : Type} (w : World) : List (Event F) :=
  [.out .compiling, .hs_compile_graph (w.argv 1), .acquire .database, .out .reading,
    .readInputData (w.argv 2)]

/-- The buffer size `readInputData` settles on when the file is not empty:
`dataLen` after the clipping of line 88. -/
def clippedLen (w : World) : Nat := min w.ftell.toNat UINT_MAX

/-- The events of `readInputData` up to line 95 when nothing fails: the
stream is opened and measured, and the clipping warning is printed for a file
larger than `UINT_MAX`. -/
def readHeader {F : Type} (w : World) (inputFN : String) : List (Event F) :=
  [.fopen inputFN none, .acquire .file, .fseek, .ftell w.ftell, .fseek] ++
    (if (UINT_MAX : Int) < w.ftell then [.out (.warnClip UINT_MAX)] else [])

/-- The events of a successful scratch allocation followed by the progress
line of line 186. -/
def scratchEvents {F : Type} : List (Event F) :=
  [.out .allocating, .hs_alloc_scratch, .acquire .scratch, .out .simulating]

/-- The clean-up both exits of the benchmark loop perform (lines 199-201 and
217-219). -/
def cleanupEvents {F : Type} : List (Event F) :=
  [.release .scratch, .release .inputData, .release .database]

/-- The events of a call of `readInputData` that returns a buffer. -/
def readEvents {F : Type} (w : World) (fuel : Nat) : List (Event F) :=
  readHeader w (w.argv 2) ++ .malloc (clippedLen w) :: .acquire .inputData ::
    (readLoop w fuel 0 (clippedLen w)).1 ++ [.release .file]

/-- The benchmark loop as `main` runs it once the buffer is read. -/
def benchLoop {F : Type} (ops : DoubleOps F) (w : World) : List (Event F) × Option F :=
  scanLoop ops w (clippedLen w % 2 ^ 32) (runsOf w) 0 (ops.ofInt 0)

/-! ## Concrete worlds used as witnesses -/

/-- Exact rational arithmetic as a stand-in for `double`. -/
def ratOps : DoubleOps ℚ where
  ofInt := fun n => (n : ℚ)
  add := fun a b => a + b
  mul := fun a b => a * b
  div := fun a b => a / b
  fmt := fun _ => "?"
  CLOCKS_PER_SEC := 1000000

/-- A run in which everything succeeds: a 7-byte input read by one `fread`,
the run count "3" as third argument, one match ending at offset 5 in every
scan. -/
def okWorld : World where
  argc := 4
  argv := fun i => if i = 0 then "graphgrep" else if i = 1 then "g.anml" else
    if i = 2 then "in.txt" else "3"
  atoi := fun a => if a = "3" then 3 else if a = "in.txt" then 7 else 0
  hs_compile_graph := fun _ => (0, "")
  fopen := fun _ => none
  fseekEnd := none
  ftell := 7
  ftellErr := ""
  fseekSet := none
  malloc := fun _ => true
  fread := fun _ n => (n, false)
  hs_alloc_scratch := 0
  hs_scan := fun _ _ => ([⟨0, 0, 5, 0⟩], 0)
  clock := fun k => 10 * k

/-- A run whose input file cannot be opened. -/
def missingWorld : World := { okWorld with fopen := fun _ => some "No such file or directory" }

/-- A run on an empty input file. -/
def emptyWorld : World := { okWorld with ftell := 0 }

/-- A run on an empty input file in which rewinding the stream fails. -/
def seekFailWorld : World := { okWorld with ftell := 0, fseekSet := some "Input/output error" }

/-- A run on an input file of `2 ^ 32 + 5` bytes, with a single scan. -/
def hugeWorld : World := { okWorld with ftell := 4294967301, atoi := fun _ => 1 }

/-- A run whose input file ends before the size `ftell` reported (as for a
file of `/sys`, or a file truncated while it is read): 4096 bytes announced,
20 bytes returned by the first `fread`, then end of file, where `fread`
returns 0 and leaves the error indicator clear. -/
def shortWorld : World :=
  { okWorld with ftell := 4096, fread := fun k _ => if k = 0 then (20, false) else (0, false) }

/-- A run in which the second of three scans fails. -/
def scanFailWorld : World :=
  { okWorld with hs_scan := fun k _ => if k = 1 then ([], -1) else ([⟨0, 0, 5, 0⟩], 0) }

/-- A run whose second `fread` fails: the first call returns 3 of the 7
bytes, the second returns 2 more and leaves the error indicator set. -/
def errorWorld : World :=
  { okWorld with fread := fun k n => if k = 0 then (3, false) else (min n 2, true) }

/-- A run with two arguments only. -/
def usageWorld : World := { okWorld with argc := 3 }

end GraphGrep

namespace GraphGrep

variable {F : Type}

/-! ## The match callback -/

theorem deliver_eventHandler (ms : List MatchEvent) :
    deliver (eventHandler : Nat → Nat → Nat → Nat → List (Event F) × Int) ms =
      (ms.map (fun m => Event.out (Msg.matchAt m.to_)), false) := by
  induction ms with
  | nil => rfl
  | cons m ms ih => simp [deliver, eventHandler, ih]

theorem hs_scan_eq (w : World) (k length : Nat) :
    (hs_scan w k length : List (Event F) × Int) =
      (Event.hs_scan length ::
        (w.hs_scan k length).1.map (fun m => Event.out (Msg.matchAt m.to_)),
        (w.hs_scan k length).2) := by
  simp [hs_scan, deliver_eventHandler]

/-- C8: whatever matches a scan delivers, the callback prints one line
"Match at offset N" per match, in delivery order, with N the end offset of the
match only; the callback returns 0 on every input, so no scan is ever stopped
by the harness and the status of a scan is the one the engine reports. -/
theorem C8_one_line_per_match (ops : DoubleOps F) (w : World) (k length : Nat)
    (ms : List MatchEvent) :
    deliver (eventHandler : Nat → Nat → Nat → Nat → List (Event F) × Int) ms =
        (ms.map (fun m => Event.out (Msg.matchAt m.to_)), false)
    ∧ (∀ id from_ to_ flags : Nat,
        (eventHandler id from_ to_ flags : List (Event F) × Int) =
          ([Event.out (Msg.matchAt to_)], 0))
    ∧ (∀ n : Nat, Msg.render ops (Msg.matchAt n) = "Match at offset " ++ toString n ++ "\n")
    ∧ (hs_scan w k length : List (Event F) × Int) =
        (Event.hs_scan length ::
          (w.hs_scan k length).1.map (fun m => Event.out (Msg.matchAt m.to_)),
          (w.hs_scan k length).2) :=
  ⟨deliver_eventHandler ms, fun _ _ _ _ => rfl, fun _ => rfl, hs_scan_eq w k length⟩

/-! ## Usage errors -/

/-- C9: with an argument count other than 4, `main` writes the usage message
to standard error and returns -1, and that is all it does: no call of
`hs_compile_graph`, `readInputData`, `hs_alloc_scratch` or `hs_scan`, no
acquisition of a resource and nothing on standard output. -/
theorem C9_usage_error (ops : DoubleOps F) (w : World) (fuel : Nat) (h : w.argc ≠ 4) :
    main ops w fuel = ⟨[Event.err (Msg.usage (w.argv 0))], some (-1)⟩
    ∧ (main ops w fuel).trace.any Event.isCompile = false
    ∧ (main ops w fuel).trace.any Event.isReadInputData = false
    ∧ (main ops w fuel).trace.any Event.isAllocScratch = false
    ∧ (main ops w fuel).trace.any Event.isScan = false
    ∧ (main ops w fuel).trace.any Event.isOut = false
    ∧ (∀ r, Event.acquire r ∉ (main ops w fuel).trace) := by
  have hm : main ops w fuel = ⟨[Event.err (Msg.usage (w.argv 0))], some (-1)⟩ := by
    simp [main, h]
  rw [hm]
  simp [Event.isCompile, Event.isReadInputData, Event.isAllocScratch, Event.isScan,
    Event.isOut]

theorem C9_usage_error_witness :
    usageWorld.argc ≠ 4 ∧
      main ratOps usageWorld 0 = ⟨[Event.err (Msg.usage "graphgrep")], some (-1)⟩ :=
  ⟨by decide, (C9_usage_error ratOps usageWorld 0 (by decide)).1⟩

/-! ## Case analysis of the program, path by path -/

/-- The paths through lines 96-120 of `readInputData`. -/
theorem readInputDataBody_cases (w : World) (fuel dataLen : Nat)
    (P : List (Event F) × ReadResult → Prop)
    (hmalloc : w.malloc dataLen = false →
      P ([.malloc dataLen, .err (.errMalloc dataLen), .release .file], .null))
    (hfailed : w.malloc dataLen = true →
      (readLoop w fuel 0 dataLen : List (Event F) × LoopResult).2 = .failed →
      P (.malloc dataLen :: .acquire .inputData :: (readLoop w fuel 0 dataLen).1, .null))
    (hunfinished : w.malloc dataLen = true →
      (readLoop w fuel 0 dataLen : List (Event F) × LoopResult).2 = .unfinished →
      P (.malloc dataLen :: .acquire .inputData :: (readLoop w fuel 0 dataLen).1, .unfinished))
    (hfilled : w.malloc dataLen = true →
      (readLoop w fuel 0 dataLen : List (Event F) × LoopResult).2 = .filled →
      P (.malloc dataLen :: .acquire .inputData :: (readLoop w fuel 0 dataLen).1 ++
          [.release .file], .data (dataLen % 2 ^ 32))) :
    P (readInputDataBody w fuel dataLen) := by
  unfold readInputDataBody
  by_cases hm : w.malloc dataLen = false
  · rw [if_pos hm]
    exact hmalloc hm
  · rw [if_neg hm]
    have hm1 : w.malloc dataLen = true := by simpa using hm
    dsimp only
    cases hl : (readLoop w fuel 0 dataLen : List (Event F) × LoopResult).2 with
    | failed => exact hfailed hm1 hl
    | unfinished => exact hunfinished hm1 hl
    | filled => exact hfilled hm1 hl

/-- The paths through `readInputData` up to line 95. -/
theorem readInputData_cases (w : World) (fuel : Nat) (inputFN : String)
    (P : List (Event F) × ReadResult → Prop)
    (hopen : ∀ e, w.fopen inputFN = some e →
      P ([.fopen inputFN (some e), .err (.errOpen inputFN e)], .null))
    (hseekEnd : ∀ e, w.fopen inputFN = none → w.fseekEnd = some e →
      P ([.fopen inputFN none, .acquire .file, .fseek, .err (.errSeek inputFN e),
          .release .file], .null))
    (hftell : w.fopen inputFN = none → w.fseekEnd = none → w.ftell < 0 →
      P ([.fopen inputFN none, .acquire .file, .fseek, .ftell w.ftell,
          .err (.errFtell w.ftellErr), .release .file], .null))
    (hseekSet : ∀ e, w.fopen inputFN = none → w.fseekEnd = none → 0 ≤ w.ftell →
      w.fseekSet = some e →
      P ([.fopen inputFN none, .acquire .file, .fseek, .ftell w.ftell, .fseek,
          .err (.errSeek inputFN e), .release .file], .null))
    (hclip : w.fopen inputFN = none → w.fseekEnd = none → w.fseekSet = none →
      (UINT_MAX : Int) < w.ftell →
      P ([.fopen inputFN none, .acquire .file, .fseek, .ftell w.ftell, .fseek,
          .out (.warnClip UINT_MAX)] ++ (readInputDataBody w fuel UINT_MAX).1,
          (readInputDataBody (F := F) w fuel UINT_MAX).2))
    (hempty : w.fopen inputFN = none → w.fseekEnd = none → w.fseekSet = none →
      w.ftell = 0 →
      P ([.fopen inputFN none, .acquire .file, .fseek, .ftell w.ftell, .fseek,
          .err (.errEmpty inputFN), .release .file], .null))
    (hbody : w.fopen inputFN = none → w.fseekEnd = none → w.fseekSet = none →
      0 < w.ftell → w.ftell ≤ (UINT_MAX : Int) →
      P ([.fopen inputFN none, .acquire .file, .fseek, .ftell w.ftell, .fseek] ++
          (readInputDataBody w fuel w.ftell.toNat).1,
          (readInputDataBody (F := F) w fuel w.ftell.toNat).2)) :
    P (readInputData w fuel inputFN) := by
  unfold readInputData
  cases ho : w.fopen inputFN with
  | some e => exact hopen e ho
  | none =>
    dsimp only
    cases hs : w.fseekEnd with
    | some e => exact hseekEnd e ho hs
    | none =>
      dsimp only
      by_cases hneg : w.ftell < 0
      · rw [if_pos hneg]
        exact hftell ho hs hneg
      · rw [if_neg hneg]
        cases hs2 : w.fseekSet with
        | some e => exact hseekSet e ho hs (by omega) hs2
        | none =>
          dsimp only
          by_cases hbig : w.ftell.toNat > UINT_MAX
          · rw [if_pos hbig]
            exact hclip ho hs hs2 (by omega)
          · rw [if_neg hbig]
            by_cases hz : w.ftell = 0
            · rw [if_pos hz]
              exact hempty ho hs hs2 hz
            · rw [if_neg hz]
              exact hbody ho hs hs2 (by omega) (by omega)

/-- The paths through `readInputData`, end to end. -/
theorem readInputData_paths (w : World) (fuel : Nat) (inputFN : String)
    (P : List (Event F) × ReadResult → Prop)
    (hopen : ∀ e, w.fopen inputFN = some e →
      P ([.fopen inputFN (some e), .err (.errOpen inputFN e)], .null))
    (hseekEnd : ∀ e, w.fopen inputFN = none → w.fseekEnd = some e →
      P ([.fopen inputFN none, .acquire .file, .fseek, .err (.errSeek inputFN e),
          .release .file], .null))
    (hftell : w.fopen inputFN = none → w.fseekEnd = none → w.ftell < 0 →
      P ([.fopen inputFN none, .acquire .file, .fseek, .ftell w.ftell,
          .err (.errFtell w.ftellErr), .release .file], .null))
    (hseekSet : ∀ e, w.fopen inputFN = none → w.fseekEnd = none → 0 ≤ w.ftell →
      w.fseekSet = some e →
      P ([.fopen inputFN none, .acquire .file, .fseek, .ftell w.ftell, .fseek,
          .err (.errSeek inputFN e), .release .file], .null))
    (hempty : w.fopen inputFN = none → w.fseekEnd = none → w.fseekSet = none →
      w.ftell = 0 →
      P ([.fopen inputFN none, .acquire .file, .fseek, .ftell w.ftell, .fseek,
          .err (.errEmpty inputFN), .release .file], .null))
    (hmalloc : w.fopen inputFN = none → w.fseekEnd = none → w.fseekSet = none →
      0 < w.ftell → w.malloc (clippedLen w) = false →
      P (readHeader w inputFN ++ [.malloc (clippedLen w),
          .err (.errMalloc (clippedLen w)), .release .file], .null))
    (hfailed : w.fopen inputFN = none → w.fseekEnd = none → w.fseekSet = none →
      0 < w.ftell → w.malloc (clippedLen w) = true →
      (readLoop w fuel 0 (clippedLen w) : List (Event F) × LoopResult).2 = .failed →
      P (readHeader w inputFN ++ .malloc (clippedLen w) :: .acquire .inputData ::
          (readLoop w fuel 0 (clippedLen w)).1, .null))
    (hunfinished : w.fopen inputFN = none → w.fseekEnd = none → w.fseekSet = none →
      0 < w.ftell → w.malloc (clippedLen w) = true →
      (readLoop w fuel 0 (clippedLen w) : List (Event F) × LoopResult).2 = .unfinished →
      P (readHeader w inputFN ++ .malloc (clippedLen w) :: .acquire .inputData ::
          (readLoop w fuel 0 (clippedLen w)).1, .unfinished))
    (hfilled : w.fopen inputFN = none → w.fseekEnd = none → w.fseekSet = none →
      0 < w.ftell → w.malloc (clippedLen w) = true →
      (readLoop w fuel 0 (clippedLen w) : List (Event F) × LoopResult).2 = .filled →
      P (readHeader w inputFN ++ .malloc (clippedLen w) :: .acquire .inputData ::
          (readLoop w fuel 0 (clippedLen w)).1 ++ [.release .file],
          .data (clippedLen w % 2 ^ 32))) :
    P (readInputData w fuel inputFN) := by
  apply readInputData_cases w fuel inputFN P hopen hseekEnd hftell hseekSet
  · intro ho hs hs2 hbig
    have hpos : 0 < w.ftell := by
      have : (0 : Int) ≤ (UINT_MAX : Int) := Int.ofNat_nonneg _
      omega
    have hlen : clippedLen w = UINT_MAX := by
      unfold clippedLen
      omega
    have hhdr : (readHeader w inputFN : List (Event F)) =
        [.fopen inputFN none, .acquire .file, .fseek, .ftell w.ftell, .fseek,
          .out (.warnClip UINT_MAX)] := by
      simp [readHeader, hbig]
    rw [← hhdr, ← hlen]
    apply readInputDataBody_cases w fuel (clippedLen w)
      (fun r => P (readHeader w inputFN ++ r.1, r.2))
    · exact hmalloc ho hs hs2 hpos
    · exact hfailed ho hs hs2 hpos
    · exact hunfinished ho hs hs2 hpos
    · intro hm hl
      have := hfilled ho hs hs2 hpos hm hl
      simpa using this
  · exact hempty
  · intro ho hs hs2 hpos hsmall
    have hlen : clippedLen w = w.ftell.toNat := by
      unfold clippedLen
      omega
    have hhdr : (readHeader w inputFN : List (Event F)) =
        [.fopen inputFN none, .acquire .file, .fseek, .ftell w.ftell, .fseek] := by
      have : ¬ (UINT_MAX : Int) < w.ftell := by omega
      simp [readHeader, this]
    rw [← hhdr, ← hlen]
    apply readInputDataBody_cases w fuel (clippedLen w)
      (fun r => P (readHeader w inputFN ++ r.1, r.2))
    · exact hmalloc ho hs hs2 hpos
    · exact hfailed ho hs hs2 hpos
    · exact hunfinished ho hs hs2 hpos
    · intro hm hl
      have := hfilled ho hs hs2 hpos hm hl
      simpa using this

/-- The paths through `main`, end to end. -/
theorem main_paths (ops : DoubleOps F) (w : World) (fuel : Nat) (P : Result F → Prop)
    (husage : w.argc ≠ 4 → P ⟨[.err (.usage (w.argv 0))], some (-1)⟩)
    (hcompile : w.argc = 4 → (w.hs_compile_graph (w.argv 1)).1 ≠ HS_SUCCESS →
      P ⟨[.out .compiling, .hs_compile_graph (w.argv 1), .acquire .compileError,
          .err (.errCompile (w.argv 1) (w.hs_compile_graph (w.argv 1)).2),
          .release .compileError], some (-1)⟩)
    (hopen : ∀ e, w.argc = 4 → (w.hs_compile_graph (w.argv 1)).1 = HS_SUCCESS →
      w.fopen (w.argv 2) = some e →
      P ⟨startEvents w ++ [.fopen (w.argv 2) (some e), .err (.errOpen (w.argv 2) e),
          .release .database], some (-1)⟩)
    (hseekEnd : ∀ e, w.argc = 4 → (w.hs_compile_graph (w.argv 1)).1 = HS_SUCCESS →
      w.fopen (w.argv 2) = none → w.fseekEnd = some e →
      P ⟨startEvents w ++ [.fopen (w.argv 2) none, .acquire .file, .fseek,
          .err (.errSeek (w.argv 2) e), .release .file, .release .database], some (-1)⟩)
    (hftell : w.argc = 4 → (w.hs_compile_graph (w.argv 1)).1 = HS_SUCCESS →
      w.fopen (w.argv 2) = none → w.fseekEnd = none → w.ftell < 0 →
      P ⟨startEvents w ++ [.fopen (w.argv 2) none, .acquire .file, .fseek, .ftell w.ftell,
          .err (.errFtell w.ftellErr), .release .file, .release .database], some (-1)⟩)
    (hseekSet : ∀ e, w.argc = 4 → (w.hs_compile_graph (w.argv 1)).1 = HS_SUCCESS →
      w.fopen (w.argv 2) = none → w.fseekEnd = none → 0 ≤ w.ftell → w.fseekSet = some e →
      P ⟨startEvents w ++ [.fopen (w.argv 2) none, .acquire .file, .fseek, .ftell w.ftell,
          .fseek, .err (.errSeek (w.argv 2) e), .release .file, .release .database],
          some (-1)⟩)
    (hempty : w.argc = 4 → (w.hs_compile_graph (w.argv 1)).1 = HS_SUCCESS →
      w.fopen (w.argv 2) = none → w.fseekEnd = none → w.fseekSet = none → w.ftell = 0 →
      P ⟨startEvents w ++ [.fopen (w.argv 2) none, .acquire .file, .fseek, .ftell w.ftell,
          .fseek, .err (.errEmpty (w.argv 2)), .release .file, .release .database],
          some (-1)⟩)
    (hmalloc : w.argc = 4 → (w.hs_compile_graph (w.argv 1)).1 = HS_SUCCESS →
      w.fopen (w.argv 2) = none → w.fseekEnd = none → w.fseekSet = none → 0 < w.ftell →
      w.malloc (clippedLen w) = false →
      P ⟨startEvents w ++ readHeader w (w.argv 2) ++ [.malloc (clippedLen w),
          .err (.errMalloc (clippedLen w)), .release .file, .release .database],
          some (-1)⟩)
    (hfailed : w.argc = 4 → (w.hs_compile_graph (w.argv 1)).1 = HS_SUCCESS →
      w.fopen (w.argv 2) = none → w.fseekEnd = none → w.fseekSet = none → 0 < w.ftell →
      w.malloc (clippedLen w) = true →
      (readLoop w fuel 0 (clippedLen w) : List (Event F) × LoopResult).2 = .failed →
      P ⟨startEvents w ++ readHeader w (w.argv 2) ++ .malloc (clippedLen w) ::
          .acquire .inputData :: (readLoop w fuel 0 (clippedLen w)).1 ++
          [.release .database], some (-1)⟩)
    (hunfinished : w.argc = 4 → (w.hs_compile_graph (w.argv 1)).1 = HS_SUCCESS →
      w.fopen (w.argv 2) = none → w.fseekEnd = none → w.fseekSet = none → 0 < w.ftell →
      w.malloc (clippedLen w) = true →
      (readLoop w fuel 0 (clippedLen w) : List (Event F) × LoopResult).2 = .unfinished →
      P ⟨startEvents w ++ readHeader w (w.argv 2) ++ .malloc (clippedLen w) ::
          .acquire .inputData :: (readLoop w fuel 0 (clippedLen w)).1, none⟩)
    (hscratch : w.argc = 4 → (w.hs_compile_graph (w.argv 1)).1 = HS_SUCCESS →
      w.fopen (w.argv 2) = none → w.fseekEnd = none → w.fseekSet = none → 0 < w.ftell →
      w.malloc (clippedLen w) = true →
      (readLoop w fuel 0 (clippedLen w) : List (Event F) × LoopResult).2 = .filled →
      w.hs_alloc_scratch ≠ HS_SUCCESS →
      P ⟨startEvents w ++ readEvents w fuel ++ [.out .allocating, .hs_alloc_scratch,
          .err .errScratch, .release .inputData, .release .database], some (-1)⟩)
    (hscan : w.argc = 4 → (w.hs_compile_graph (w.argv 1)).1 = HS_SUCCESS →
      w.fopen (w.argv 2) = none → w.fseekEnd = none → w.fseekSet = none → 0 < w.ftell →
      w.malloc (clippedLen w) = true →
      (readLoop w fuel 0 (clippedLen w) : List (Event F) × LoopResult).2 = .filled →
      w.hs_alloc_scratch = HS_SUCCESS → (benchLoop ops w).2 = none →
      P ⟨startEvents w ++ readEvents w fuel ++ scratchEvents ++ (benchLoop ops w).1,
          some (-1)⟩)
    (hdone : ∀ elapsed_average, w.argc = 4 →
      (w.hs_compile_graph (w.argv 1)).1 = HS_SUCCESS →
      w.fopen (w.argv 2) = none → w.fseekEnd = none → w.fseekSet = none → 0 < w.ftell →
      w.malloc (clippedLen w) = true →
      (readLoop w fuel 0 (clippedLen w) : List (Event F) × LoopResult).2 = .filled →
      w.hs_alloc_scratch = HS_SUCCESS → (benchLoop ops w).2 = some elapsed_average →
      P ⟨startEvents w ++ readEvents w fuel ++ scratchEvents ++ (benchLoop ops w).1 ++
          .out (.average (ops.div elapsed_average (ops.ofInt (runsOf w)))) :: cleanupEvents,
          some 0⟩) :
    P (main ops w fuel) := by
  unfold main
  by_cases h4 : w.argc ≠ 4
  · rw [if_pos h4]
    exact husage h4
  rw [if_neg h4]
  have h4 : w.argc = 4 := by simpa using h4
  dsimp only
  by_cases hc : (w.hs_compile_graph (w.argv 1)).1 ≠ HS_SUCCESS
  · rw [if_pos hc]
    exact hcompile h4 hc
  rw [if_neg hc]
  have hc : (w.hs_compile_graph (w.argv 1)).1 = HS_SUCCESS := by simpa using hc
  apply readInputData_paths w fuel (w.argv 2) (fun read => P (
      match read.2 with
      | .unfinished =>
        ⟨[.out .compiling, .hs_compile_graph (w.argv 1), .acquire .database, .out .reading,
          .readInputData (w.argv 2)] ++ read.1, none⟩
      | .null =>
        ⟨[.out .compiling, .hs_compile_graph (w.argv 1), .acquire .database, .out .reading,
          .readInputData (w.argv 2)] ++ read.1 ++ [.release .database], some (-1)⟩
      | .data length =>
        ⟨[.out .compiling, .hs_compile_graph (w.argv 1), .acquire .database, .out .reading,
          .readInputData (w.argv 2)] ++ read.1 ++ (mainScan ops w length).trace,
          (mainScan ops w length).exit⟩))
  · intro e ho
    simpa [startEvents] using hopen e h4 hc ho
  · intro e ho hs
    simpa [startEvents] using hseekEnd e h4 hc ho hs
  · intro ho hs hn
    simpa [startEvents] using hftell h4 hc ho hs hn
  · intro e ho hs hn hs2
    simpa [startEvents] using hseekSet e h4 hc ho hs hn hs2
  · intro ho hs hs2 hz
    simpa [startEvents] using hempty h4 hc ho hs hs2 hz
  · intro ho hs hs2 hp hm
    simpa [startEvents] using hmalloc h4 hc ho hs hs2 hp hm
  · intro ho hs hs2 hp hm hl
    simpa [startEvents] using hfailed h4 hc ho hs hs2 hp hm hl
  · intro ho hs hs2 hp hm hl
    simpa [startEvents] using hunfinished h4 hc ho hs hs2 hp hm hl
  · intro ho hs hs2 hp hm hl
    dsimp only
    unfold mainScan
    by_cases ha : w.hs_alloc_scratch ≠ HS_SUCCESS
    · rw [if_pos ha]
      simpa [startEvents, readEvents] using hscratch h4 hc ho hs hs2 hp hm hl ha
    · rw [if_neg ha]
      have ha : w.hs_alloc_scratch = HS_SUCCESS := by simpa using ha
      dsimp only
      cases hb : (benchLoop ops w).2 with
      | none =>
        have hb2 := hb
        unfold benchLoop at hb2
        rw [hb2]
        simpa [startEvents, readEvents, scratchEvents, benchLoop] using
          hscan h4 hc ho hs hs2 hp hm hl ha hb
      | some avg =>
        have hb2 := hb
        unfold benchLoop at hb2
        rw [hb2]
        simpa [startEvents, readEvents, scratchEvents, benchLoop, cleanupEvents] using
          hdone avg h4 hc ho hs hs2 hp hm hl ha hb

/-! ## Which events each part of the program produces -/

theorem readLoop_events (w : World) (fuel k b : Nat) :
    ∀ e ∈ (readLoop w fuel k b : List (Event F) × LoopResult).1, e.isBodyEvent = true := by
  induction fuel generalizing k b with
  | zero => cases b <;> simp [readLoop]
  | succ fuel ih =>
    cases b with
    | zero => simp [readLoop]
    | succ b =>
      intro e he
      simp only [readLoop] at he
      split_ifs at he with hf
      · simp at he
        rcases he with rfl | rfl | rfl | rfl <;> rfl
      · simp at he
        rcases he with rfl | he
        · rfl
        · exact ih _ _ e he

theorem readInputDataBody_events (w : World) (fuel dataLen : Nat) :
    ∀ e ∈ (readInputDataBody w fuel dataLen : List (Event F) × ReadResult).1,
      e.isBodyEvent = true := by
  have hl := readLoop_events (F := F) w fuel 0 dataLen
  apply readInputDataBody_cases w fuel dataLen (fun r => ∀ e ∈ r.1, e.isBodyEvent = true)
  · intro _ e he
    simp at he
    rcases he with rfl | rfl | rfl <;> rfl
  all_goals
    intro _ _ e he
    simp at he
    rcases he with rfl | rfl | he
    · rfl
    · rfl
    · first
        | exact hl e he
        | (rcases he with he | rfl
           · exact hl e he
           · rfl)

theorem isReadEvent_of_isBodyEvent (e : Event F) (h : e.isBodyEvent = true) :
    e.isReadEvent = true := by
  cases e with
  | err m => cases m <;> simp_all [Event.isBodyEvent, Event.isReadEvent]
  | acquire r => cases r <;> simp_all [Event.isBodyEvent, Event.isReadEvent]
  | release r => cases r <;> simp_all [Event.isBodyEvent, Event.isReadEvent]
  | _ => simp_all [Event.isBodyEvent, Event.isReadEvent]

theorem readInputData_events (w : World) (fuel : Nat) (inputFN : String) :
    ∀ e ∈ (readInputData w fuel inputFN : List (Event F) × ReadResult).1,
      e.isReadEvent = true := by
  have hb := fun d e he =>
    isReadEvent_of_isBodyEvent e (readInputDataBody_events (F := F) w fuel d e he)
  apply readInputData_cases w fuel inputFN (fun r => ∀ e ∈ r.1, e.isReadEvent = true)
  · intro _ _ e he
    simp at he
    rcases he with rfl | rfl <;> rfl
  · intro _ _ _ e he
    simp at he
    rcases he with rfl | rfl | rfl | rfl | rfl <;> rfl
  · intro _ _ _ e he
    simp at he
    rcases he with rfl | rfl | rfl | rfl | rfl | rfl <;> rfl
  · intro _ _ _ _ _ e he
    simp at he
    rcases he with rfl | rfl | rfl | rfl | rfl | rfl | rfl <;> rfl
  · intro _ _ _ _ e he
    simp at he
    rcases he with rfl | rfl | rfl | rfl | rfl | rfl | he
    any_goals rfl
    exact hb _ e he
  · intro _ _ _ _ e he
    simp at he
    rcases he with rfl | rfl | rfl | rfl | rfl | rfl | rfl <;> rfl
  · intro _ _ _ _ _ e he
    simp at he
    rcases he with rfl | rfl | rfl | rfl | rfl | he
    any_goals rfl
    exact hb _ e he

/-! ## The benchmark loop -/

theorem timeValues_append (a b : List (Event F)) :
    timeValues (a ++ b) = timeValues a ++ timeValues b := by
  induction a with
  | nil => rfl
  | cons e a ih =>
    cases e with
    | out m => cases m <;> simp [timeValues, ih]
    | _ => simp [timeValues, ih]

theorem timeValues_length (a : List (Event F)) :
    (timeValues a).length = a.countP Event.isTimeLine := by
  induction a with
  | nil => rfl
  | cons e a ih =>
    cases e with
    | out m => cases m <;> simp [timeValues, ih, Event.isTimeLine]
    | _ => simp [timeValues, ih, Event.isTimeLine]

theorem timeValues_iteration (xs rest : List (Event F)) (v : F) (hx : timeValues xs = []) :
    timeValues (Event.clock :: xs ++ [Event.clock, Event.out (Msg.timeElapsed v)] ++ rest) =
      v :: timeValues rest := by
  have : Event.clock :: xs ++ [Event.clock, Event.out (Msg.timeElapsed v)] ++ rest =
      [Event.clock] ++ xs ++ [Event.clock, Event.out (Msg.timeElapsed v)] ++ rest := rfl
  rw [this]
  simp only [timeValues_append, hx]
  rfl

/-- The events of one call of `hs_scan`: the call and the match lines. -/
theorem hs_scan_observations (w : World) (k length : Nat) :
    timeValues (hs_scan w k length : List (Event F) × Int).1 = []
    ∧ (hs_scan w k length : List (Event F) × Int).1.countP Event.isScan = 1
    ∧ (hs_scan w k length : List (Event F) × Int).1.countP Event.isAverageLine = 0
    ∧ (∀ e ∈ (hs_scan w k length : List (Event F) × Int).1, e.isScanPhaseEvent = true) := by
  rw [hs_scan_eq]
  generalize (w.hs_scan k length).1 = ms
  dsimp only
  induction ms with
  | nil => simp [timeValues, Event.isScan, Event.isAverageLine, Event.isScanPhaseEvent]
  | cons m ms ih =>
    obtain ⟨h1, h2, h3, h4⟩ := ih
    simp only [timeValues, List.map_cons] at h1 ⊢
    refine ⟨h1, ?_, ?_, ?_⟩
    · simp [Event.isScan, List.countP_cons]
    · simp [Event.isAverageLine, List.countP_cons]
    · intro e he
      simp only [List.mem_cons, List.map_cons] at he h4
      rcases he with rfl | rfl | he
      · rfl
      · rfl
      · exact h4 e (Or.inr he)

theorem scanLoop_events (ops : DoubleOps F) (w : World) (length n i : Nat) (acc : F) :
    ∀ e ∈ (scanLoop ops w length n i acc).1, e.isScanPhaseEvent = true := by
  induction n generalizing i acc with
  | zero => simp [scanLoop]
  | succ n ih =>
    intro e he
    have hs := (hs_scan_observations (F := F) w i length).2.2.2
    simp only [scanLoop] at he
    split_ifs at he with hf
    · simp only [List.mem_cons, List.mem_append, List.mem_singleton, List.cons_append] at he
      rcases he with rfl | he | he
      · rfl
      · exact hs e he
      · simp at he
        rcases he with rfl | rfl | rfl | rfl <;> rfl
    · simp only [List.mem_cons, List.mem_append, List.cons_append] at he
      rcases he with rfl | (he | he) | he
      · rfl
      · exact hs e he
      · simp at he
        rcases he with rfl | rfl <;> rfl
      · exact ih _ _ e he

/-- The value the loop leaves in `elapsed_average` is the sum, taken from
left to right, of the elapsed values it printed. -/
theorem scanLoop_sum (ops : DoubleOps F) (w : World) (length n i : Nat) (acc a : F)
    (h : (scanLoop ops w length n i acc).2 = some a) :
    a = (timeValues (scanLoop ops w length n i acc).1).foldl ops.add acc := by
  induction n generalizing i acc with
  | zero => simpa [scanLoop, timeValues] using h.symm
  | succ n ih =>
    have hs := (hs_scan_observations (F := F) w i length).1
    by_cases hf : (hs_scan (F := F) w i length).2 ≠ HS_SUCCESS
    · simp [scanLoop, hf] at h
    · simp only [scanLoop, hf, if_false] at h ⊢
      have := ih _ _ h
      rw [timeValues_iteration _ _ _ hs, List.foldl_cons]
      exact this

theorem scanLoop_succ_failure (ops : DoubleOps F) (w : World) (length n i : Nat) (acc : F)
    (hf : (hs_scan (F := F) w i length).2 ≠ HS_SUCCESS) :
    scanLoop ops w length (n + 1) i acc =
      (Event.clock :: (hs_scan w i length).1 ++ Event.err Msg.errScan :: cleanupEvents,
        none) := by
  simp only [scanLoop, cleanupEvents]
  rw [if_pos hf]

theorem scanLoop_succ_success (ops : DoubleOps F) (w : World) (length n i : Nat) (acc : F)
    (h0 : (hs_scan (F := F) w i length).2 = HS_SUCCESS) :
    scanLoop ops w length (n + 1) i acc =
      (Event.clock :: (hs_scan w i length).1 ++
        [Event.clock,
          Event.out (Msg.timeElapsed (elapsedMs ops (w.clock (2 * i)) (w.clock (2 * i + 1))))] ++
        (scanLoop ops w length n (i + 1)
          (ops.add acc (elapsedMs ops (w.clock (2 * i)) (w.clock (2 * i + 1))))).1,
       (scanLoop ops w length n (i + 1)
          (ops.add acc (elapsedMs ops (w.clock (2 * i)) (w.clock (2 * i + 1))))).2) := by
  simp only [scanLoop]
  rw [if_neg (by simpa using h0)]

/-- When every scan succeeds the loop runs to its end: `n` calls of
`hs_scan`, `n` timing lines, no average line. -/
theorem scanLoop_all_succeed (ops : DoubleOps F) (w : World) (length n i : Nat) (acc : F)
    (h : ∀ j, j < n → (hs_scan (F := F) w (i + j) length).2 = HS_SUCCESS) :
    (∃ a, (scanLoop ops w length n i acc).2 = some a)
    ∧ (scanLoop ops w length n i acc).1.countP Event.isScan = n
    ∧ (scanLoop ops w length n i acc).1.countP Event.isTimeLine = n
    ∧ (scanLoop ops w length n i acc).1.countP Event.isAverageLine = 0 := by
  induction n generalizing i acc with
  | zero => simp [scanLoop]
  | succ n ih =>
    obtain ⟨-, h2, h3, -⟩ := hs_scan_observations (F := F) w i length
    have h1 := timeValues_length (hs_scan (F := F) w i length).1
    rw [(hs_scan_observations (F := F) w i length).1] at h1
    have h0 : (hs_scan (F := F) w i length).2 = HS_SUCCESS := by simpa using h 0 (by omega)
    have hrest : ∀ j, j < n → (hs_scan (F := F) w (i + 1 + j) length).2 = HS_SUCCESS := by
      intro j hj
      have := h (j + 1) (by omega)
      rwa [show i + (j + 1) = i + 1 + j by omega] at this
    obtain ⟨ha, hb, hc, hd⟩ := ih (i + 1)
      (ops.add acc (elapsedMs ops (w.clock (2 * i)) (w.clock (2 * i + 1)))) hrest
    simp only [scanLoop, h0, ne_eq, not_true_eq_false, if_false]
    refine ⟨ha, ?_, ?_, ?_⟩
    · simp only [List.cons_append, List.countP_cons, List.countP_append, h2, hb]
      simp [Event.isScan]
      omega
    · simp only [List.cons_append, List.countP_cons, List.countP_append, hc]
      simp only [List.length_nil] at h1
      rw [← h1]
      simp [Event.isTimeLine]
      omega
    · simp only [List.cons_append, List.countP_cons, List.countP_append, h3, hd]
      simp [Event.isAverageLine]

/-- When the first `k` scans succeed and the next one fails, the loop stops
there: `k + 1` calls of `hs_scan`, `k` timing lines, the scan diagnostic. -/
theorem scanLoop_first_failure (ops : DoubleOps F) (w : World) (length n i k : Nat) (acc : F)
    (hk : k < n)
    (h : ∀ j, j < k → (hs_scan (F := F) w (i + j) length).2 = HS_SUCCESS)
    (hf : (hs_scan (F := F) w (i + k) length).2 ≠ HS_SUCCESS) :
    (scanLoop ops w length n i acc).2 = none
    ∧ (scanLoop ops w length n i acc).1.countP Event.isScan = k + 1
    ∧ (scanLoop ops w length n i acc).1.countP Event.isTimeLine = k
    ∧ (scanLoop ops w length n i acc).1.countP Event.isAverageLine = 0
    ∧ Event.err Msg.errScan ∈ (scanLoop ops w length n i acc).1 := by
  induction k generalizing n i acc with
  | zero =>
    obtain ⟨n, rfl⟩ : ∃ m, n = m + 1 := ⟨n - 1, by omega⟩
    obtain ⟨-, h2, h3, -⟩ := hs_scan_observations (F := F) w i length
    have h1 := timeValues_length (hs_scan (F := F) w i length).1
    rw [(hs_scan_observations (F := F) w i length).1] at h1
    simp only [List.length_nil] at h1
    have hf0 : (hs_scan (F := F) w i length).2 ≠ HS_SUCCESS := by simpa using hf
    simp only [scanLoop, hf0, ne_eq, not_false_eq_true, if_true]
    refine ⟨trivial, ?_, ?_, ?_, ?_⟩
    · simp only [List.cons_append, List.countP_cons, List.countP_append, h2]
      simp [Event.isScan]
    · simp only [List.cons_append, List.countP_cons, List.countP_append, ← h1]
      simp [Event.isTimeLine]
    · simp only [List.cons_append, List.countP_cons, List.countP_append, h3]
      simp [Event.isAverageLine]
    · simp
  | succ k ih =>
    obtain ⟨n, rfl⟩ : ∃ m, n = m + 1 := ⟨n - 1, by omega⟩
    obtain ⟨-, h2, h3, -⟩ := hs_scan_observations (F := F) w i length
    have h1 := timeValues_length (hs_scan (F := F) w i length).1
    rw [(hs_scan_observations (F := F) w i length).1] at h1
    simp only [List.length_nil] at h1
    have h0 : (hs_scan (F := F) w i length).2 = HS_SUCCESS := by simpa using h 0 (by omega)
    have hrest : ∀ j, j < k → (hs_scan (F := F) w (i + 1 + j) length).2 = HS_SUCCESS := by
      intro j hj
      have := h (j + 1) (by omega)
      rwa [show i + (j + 1) = i + 1 + j by omega] at this
    have hf1 : (hs_scan (F := F) w (i + 1 + k) length).2 ≠ HS_SUCCESS := by
      rwa [show i + (k + 1) = i + 1 + k by omega] at hf
    obtain ⟨ha, hb, hc, hd, he⟩ := ih n (i + 1)
      (ops.add acc (elapsedMs ops (w.clock (2 * i)) (w.clock (2 * i + 1)))) (by omega)
      hrest hf1
    simp only [scanLoop, h0, ne_eq, not_true_eq_false, if_false]
    refine ⟨ha, ?_, ?_, ?_, ?_⟩
    · simp only [List.cons_append, List.countP_cons, List.countP_append, h2, hb]
      simp [Event.isScan]
      omega
    · simp only [List.cons_append, List.countP_cons, List.countP_append, hc, ← h1]
      simp [Event.isTimeLine]
      omega
    · simp only [List.cons_append, List.countP_cons, List.countP_append, h3, hd]
      simp [Event.isAverageLine]
    · simp only [List.cons_append, List.mem_cons, List.mem_append]
      exact Or.inr (Or.inr he)

/-! ## Where an event can occur -/

theorem not_mem_readLoop (w : World) (fuel k b : Nat) (x : Event F)
    (hx : x.isBodyEvent = false) :
    x ∉ (readLoop w fuel k b : List (Event F) × LoopResult).1 := by
  intro h
  rw [readLoop_events w fuel k b x h] at hx
  exact Bool.noConfusion hx

theorem not_mem_benchLoop (ops : DoubleOps F) (w : World) (x : Event F)
    (hx : x.isScanPhaseEvent = false) : x ∉ (benchLoop ops w).1 := by
  intro h
  rw [scanLoop_events ops w _ _ _ _ x h] at hx
  exact Bool.noConfusion hx

theorem mem_readHeader (w : World) (inputFN : String) (x : Event F)
    (h : x ∈ (readHeader w inputFN : List (Event F))) :
    x = .fopen inputFN none ∨ x = .acquire .file ∨ x = .fseek ∨ x = .ftell w.ftell ∨
      x = .out (.warnClip UINT_MAX) := by
  unfold readHeader at h
  split_ifs at h <;> simp at h <;> tauto

/-! ## A missing input file -/

/-- C3: in every run in which `fopen` fails, with OS error string `e`, on the
path `p`, `main` returns -1 and the run consists of the compile step, the
failed `fopen`, the diagnostic on standard error naming `p` and `e`, and the
release of the database: `hs_alloc_scratch` and `hs_scan` are never called. -/
theorem C3_fopen_failure (ops : DoubleOps F) (w : World) (fuel : Nat) (p e : String)
    (h : Event.fopen p (some e) ∈ (main ops w fuel).trace) :
    (main ops w fuel).exit = some (-1)
    ∧ p = w.argv 2
    ∧ (main ops w fuel).trace =
        startEvents w ++ [.fopen p (some e), .err (.errOpen p e), .release .database]
    ∧ Msg.render ops (.errOpen p e) =
        "ERROR: unable to open file \"" ++ p ++ "\": " ++ e ++ "\n"
    ∧ (main ops w fuel).trace.any Event.isAllocScratch = false
    ∧ (main ops w fuel).trace.any Event.isScan = false := by
  revert h
  apply main_paths ops w fuel (fun r => Event.fopen p (some e) ∈ r.trace →
    r.exit = some (-1) ∧ p = w.argv 2
    ∧ r.trace = startEvents w ++ [Event.fopen p (some e), Event.err (Msg.errOpen p e),
        Event.release Resource.database]
    ∧ Msg.render ops (Msg.errOpen p e) =
        "ERROR: unable to open file \"" ++ p ++ "\": " ++ e ++ "\n"
    ∧ r.trace.any Event.isAllocScratch = false
    ∧ r.trace.any Event.isScan = false)
  case hopen =>
    intro e2 _ _ _ h
    simp [startEvents] at h
    obtain ⟨rfl, rfl⟩ := h
    simp [startEvents, Event.isAllocScratch, Event.isScan, Msg.render]
  all_goals
    intros
    rename_i h
    have hl := not_mem_readLoop (F := F) w fuel 0 (clippedLen w) (.fopen p (some e)) rfl
    have hb := not_mem_benchLoop ops w (.fopen p (some e)) rfl
    have hh := mem_readHeader (F := F) w (w.argv 2) (.fopen p (some e))
    simp [startEvents, readEvents, scratchEvents, cleanupEvents, hl, hb] at h hh
    try exact absurd h hh

theorem C3_fopen_failure_witness :
    Event.fopen "in.txt" (some "No such file or directory") ∈ (main ratOps missingWorld 0).trace
    ∧ (main ratOps missingWorld 0).exit = some (-1) :=
  ⟨by decide, (C3_fopen_failure ratOps missingWorld 0 "in.txt" "No such file or directory"
    (by decide)).1⟩

/-! ## An empty input file -/

/-- C2 fails as stated: when `ftell` reports 0 and rewinding the stream then
fails, the run ends with the seek diagnostic and the "empty input" diagnostic
is never printed. -/
theorem C2_counterexample :
    Event.ftell 0 ∈ (main ratOps seekFailWorld 0).trace
    ∧ (main ratOps seekFailWorld 0).trace.any Event.isEmptyDiagnostic = false
    ∧ Event.err (Msg.errSeek "in.txt" "Input/output error") ∈
        (main ratOps seekFailWorld 0).trace := by
  decide

/-- C2, amended: in every run in which `ftell` reports 0, `main` returns -1
and neither `hs_alloc_scratch` nor `hs_scan` is called.  When rewinding the
stream succeeds the run ends with the "empty input" diagnostic on standard
error; when it fails the run ends with the seek diagnostic instead and the
"empty input" diagnostic is not printed. -/
theorem C2_empty_input (ops : DoubleOps F) (w : World) (fuel : Nat)
    (h : Event.ftell 0 ∈ (main ops w fuel).trace) :
    (main ops w fuel).exit = some (-1)
    ∧ (main ops w fuel).trace.any Event.isAllocScratch = false
    ∧ (main ops w fuel).trace.any Event.isScan = false
    ∧ (w.fseekSet = none →
        (main ops w fuel).trace = startEvents w ++
          [.fopen (w.argv 2) none, .acquire .file, .fseek, .ftell 0, .fseek,
            .err (.errEmpty (w.argv 2)), .release .file, .release .database])
    ∧ (∀ e, w.fseekSet = some e →
        (main ops w fuel).trace = startEvents w ++
          [.fopen (w.argv 2) none, .acquire .file, .fseek, .ftell 0, .fseek,
            .err (.errSeek (w.argv 2) e), .release .file, .release .database])
    ∧ (∀ fn, Msg.render ops (.errEmpty fn) = "ERROR: input file \"" ++ fn ++ "\" is empty\n") := by
  revert h
  apply main_paths ops w fuel (fun r => Event.ftell 0 ∈ r.trace →
    r.exit = some (-1)
    ∧ r.trace.any Event.isAllocScratch = false
    ∧ r.trace.any Event.isScan = false
    ∧ (w.fseekSet = none →
        r.trace = startEvents w ++
          [Event.fopen (w.argv 2) none, Event.acquire Resource.file, Event.fseek,
            Event.ftell 0, Event.fseek, Event.err (Msg.errEmpty (w.argv 2)),
            Event.release Resource.file, Event.release Resource.database])
    ∧ (∀ e, w.fseekSet = some e →
        r.trace = startEvents w ++
          [Event.fopen (w.argv 2) none, Event.acquire Resource.file, Event.fseek,
            Event.ftell 0, Event.fseek, Event.err (Msg.errSeek (w.argv 2) e),
            Event.release Resource.file, Event.release Resource.database])
    ∧ (∀ fn, Msg.render ops (Msg.errEmpty fn) =
        "ERROR: input file \"" ++ fn ++ "\" is empty\n"))
  case hseekSet =>
    intro e2 _ _ _ _ _ hs2 h
    simp [startEvents] at h
    simp [startEvents, Event.isAllocScratch, Event.isScan, Msg.render, hs2, ← h]
  case hempty =>
    intro _ _ _ _ hs2 hz h
    simp [startEvents, Event.isAllocScratch, Event.isScan, Msg.render, hs2, hz]
  case hftell =>
    intro _ _ _ _ hn h
    simp [startEvents] at h
    omega
  all_goals
    intros
    rename_i h
    have hl := not_mem_readLoop (F := F) w fuel 0 (clippedLen w) (.ftell 0) rfl
    have hb := not_mem_benchLoop ops w (.ftell 0) rfl
    have hh := mem_readHeader (F := F) w (w.argv 2) (.ftell 0)
    simp [startEvents, readEvents, scratchEvents, cleanupEvents, hl, hb] at h hh
    try
      have hz := hh h
      omega

theorem C2_empty_input_witness :
    Event.ftell 0 ∈ (main ratOps emptyWorld 0).trace
    ∧ (main ratOps emptyWorld 0).exit = some (-1)
    ∧ Event.err (Msg.errEmpty "in.txt") ∈ (main ratOps emptyWorld 0).trace := by
  have h := C2_empty_input ratOps emptyWorld 0 (by decide)
  refine ⟨by decide, h.1, ?_⟩
  rw [h.2.2.2.1 rfl]
  decide

/-! ## The length handed to the scan engine -/

theorem scanLoop_scan_length (ops : DoubleOps F) (w : World) (length n i : Nat) (acc : F)
    (l : Nat) (h : Event.hs_scan l ∈ (scanLoop ops w length n i acc).1) : l = length := by
  induction n generalizing i acc with
  | zero => simp [scanLoop] at h
  | succ n ih =>
    by_cases hf : (hs_scan (F := F) w i length).2 ≠ HS_SUCCESS
    · rw [scanLoop_succ_failure ops w length n i acc hf, hs_scan_eq] at h
      simpa [cleanupEvents] using h
    · rw [scanLoop_succ_success ops w length n i acc (by simpa using hf), hs_scan_eq] at h
      simp at h
      rcases h with h | h
      · exact h
      · exact ih _ _ h

theorem clippedLen_eq (w : World) (hpos : 0 < w.ftell) :
    ((clippedLen w % 2 ^ 32 : Nat) : Int) = min w.ftell (UINT_MAX : Int)
    ∧ 0 < clippedLen w % 2 ^ 32 ∧ clippedLen w % 2 ^ 32 ≤ UINT_MAX
    ∧ clippedLen w % 2 ^ 32 = clippedLen w := by
  unfold clippedLen UINT_MAX
  omega

/-- C4: whenever `readInputData` returns a buffer, the length it stores is
the minimum of the size `ftell` reported and `UINT_MAX`, hence positive and
at most `UINT_MAX`; for a size above `UINT_MAX` the buffer has exactly
`UINT_MAX` bytes and the warning line is printed.  Every call of `hs_scan`
that `main` makes is given that length. -/
theorem C4_truncation (ops : DoubleOps F) (w : World) (fuel : Nat) (inputFN : String)
    (length : Nat)
    (h : (readInputData (F := F) w fuel inputFN).2 = .data length) :
    (length : Int) = min w.ftell (UINT_MAX : Int)
    ∧ 0 < length ∧ length ≤ UINT_MAX
    ∧ ((UINT_MAX : Int) < w.ftell →
        length = UINT_MAX
        ∧ Event.malloc UINT_MAX ∈ (readInputData (F := F) w fuel inputFN).1
        ∧ Event.out (.warnClip 4294967295) ∈ (readInputData (F := F) w fuel inputFN).1
        ∧ Msg.render ops (.warnClip 4294967295) =
            "WARNING: clipping data to 4294967295 bytes\n")
    ∧ (∀ l, Event.hs_scan l ∈ (main ops w fuel).trace →
        (l : Int) = min w.ftell (UINT_MAX : Int) ∧ 0 < l ∧ l ≤ UINT_MAX) := by
  have hmain : ∀ l, Event.hs_scan l ∈ (main ops w fuel).trace →
      (l : Int) = min w.ftell (UINT_MAX : Int) ∧ 0 < l ∧ l ≤ UINT_MAX := by
    intro l
    apply main_paths ops w fuel (fun r => Event.hs_scan l ∈ r.trace →
      (l : Int) = min w.ftell (UINT_MAX : Int) ∧ 0 < l ∧ l ≤ UINT_MAX)
    case hscan =>
      intro _ _ _ _ _ hpos _ _ _ _ h
      have hl := not_mem_readLoop (F := F) w fuel 0 (clippedLen w) (.hs_scan l) rfl
      have hh := mem_readHeader (F := F) w (w.argv 2) (.hs_scan l)
      simp [startEvents, readEvents, scratchEvents, cleanupEvents, hl] at h hh
      rcases h with h | h
      · exact absurd h hh
      · have := scanLoop_scan_length ops w _ _ _ _ l h
        have hc := clippedLen_eq w hpos
        rw [this]
        exact ⟨hc.1, hc.2.1, hc.2.2.1⟩
    case hdone =>
      intro _ _ _ _ _ _ hpos _ _ _ _ h
      have hl := not_mem_readLoop (F := F) w fuel 0 (clippedLen w) (.hs_scan l) rfl
      have hh := mem_readHeader (F := F) w (w.argv 2) (.hs_scan l)
      simp [startEvents, readEvents, scratchEvents, cleanupEvents, hl] at h hh
      rcases h with h | h
      · exact absurd h hh
      · have := scanLoop_scan_length ops w _ _ _ _ l h
        have hc := clippedLen_eq w hpos
        rw [this]
        exact ⟨hc.1, hc.2.1, hc.2.2.1⟩
    all_goals
      intros
      rename_i h
      have hl := not_mem_readLoop (F := F) w fuel 0 (clippedLen w) (.hs_scan l) rfl
      have hh := mem_readHeader (F := F) w (w.argv 2) (.hs_scan l)
      simp [startEvents, readEvents, scratchEvents, cleanupEvents, hl] at h hh
      try exact absurd h hh
  suffices hread : (length : Int) = min w.ftell (UINT_MAX : Int)
      ∧ 0 < length ∧ length ≤ UINT_MAX
      ∧ ((UINT_MAX : Int) < w.ftell →
        length = UINT_MAX
        ∧ Event.malloc UINT_MAX ∈ (readInputData (F := F) w fuel inputFN).1
        ∧ Event.out (Msg.warnClip 4294967295) ∈ (readInputData (F := F) w fuel inputFN).1
        ∧ Msg.render ops (Msg.warnClip 4294967295) =
            "WARNING: clipping data to 4294967295 bytes\n") from
    ⟨hread.1, hread.2.1, hread.2.2.1, hread.2.2.2, hmain⟩
  revert h
  apply readInputData_paths w fuel inputFN (fun r => r.2 = ReadResult.data length →
    (length : Int) = min w.ftell (UINT_MAX : Int)
      ∧ 0 < length ∧ length ≤ UINT_MAX
      ∧ ((UINT_MAX : Int) < w.ftell →
        length = UINT_MAX
        ∧ Event.malloc UINT_MAX ∈ r.1
        ∧ Event.out (Msg.warnClip 4294967295) ∈ r.1
        ∧ Msg.render ops (Msg.warnClip 4294967295) =
            "WARNING: clipping data to 4294967295 bytes\n"))
  case hfilled =>
    intro _ _ _ hpos _ _ h
    have hc := clippedLen_eq w hpos
    simp only [ReadResult.data.injEq] at h
    subst h
    refine ⟨hc.1, hc.2.1, hc.2.2.1, ?_⟩
    intro hbig
    have hlen : clippedLen w = UINT_MAX := by
      unfold clippedLen UINT_MAX at *
      omega
    refine ⟨?_, ?_, ?_, ?_⟩
    · rw [hc.2.2.2, hlen]
    · simp [hlen]
    · have hbig2 : (4294967295 : Int) < w.ftell := by simpa [UINT_MAX] using hbig
      simp [readHeader, hbig2, UINT_MAX]
    · have : toString (4294967295 : Int) = "4294967295" := by decide
      simp only [Msg.render, this]
      decide
  all_goals
    intros
    rename_i h
    simp at h

theorem C4_truncation_witness :
    (readInputData (F := ℚ) hugeWorld 1 "in.txt").2 = .data 4294967295
    ∧ ((4294967295 : Nat) : Int) = min hugeWorld.ftell (UINT_MAX : Int)
    ∧ Event.hs_scan 4294967295 ∈ (main ratOps hugeWorld 1).trace :=
  ⟨by decide, (C4_truncation ratOps hugeWorld 1 "in.txt" 4294967295 (by decide)).1, by decide⟩

/-! ## The read loop -/

theorem readLoop_succ_error (w : World) (fuel k b : Nat) (he : (w.fread k (b + 1)).2 = true) :
    (readLoop w (fuel + 1) k (b + 1) : List (Event F) × LoopResult) =
      ([.fread (b + 1) (min (w.fread k (b + 1)).1 (b + 1)), .err .errFread,
        .release .inputData, .release .file], .failed) := by
  simp only [readLoop]
  rw [if_pos he]

theorem readLoop_succ_read (w : World) (fuel k b : Nat) (he : (w.fread k (b + 1)).2 = false) :
    (readLoop w (fuel + 1) k (b + 1) : List (Event F) × LoopResult) =
      (.fread (b + 1) (min (w.fread k (b + 1)).1 (b + 1)) ::
        (readLoop w fuel (k + 1) (b + 1 - min (w.fread k (b + 1)).1 (b + 1))).1,
        (readLoop (F := F) w fuel (k + 1) (b + 1 - min (w.fread k (b + 1)).1 (b + 1))).2) := by
  simp only [readLoop]
  rw [if_neg (by simp [he])]

/-- With progress at every call, a budget of `bytesLeft` iterations is enough
for the read loop to end. -/
theorem readLoop_terminates (w : World) (hw : FreadProgress w) (fuel k b : Nat)
    (hb : b ≤ fuel) :
    (readLoop w fuel k b : List (Event F) × LoopResult).2 ≠ .unfinished
    ∧ (readLoop w fuel k b : List (Event F) × LoopResult).1.countP Event.isFread ≤ b
    ∧ ((readLoop w fuel k b : List (Event F) × LoopResult).2 = .filled →
        freadBytes (readLoop w fuel k b : List (Event F) × LoopResult).1 = b)
    ∧ ((readLoop w fuel k b : List (Event F) × LoopResult).2 = .failed →
        Event.err Msg.errFread ∈ (readLoop w fuel k b : List (Event F) × LoopResult).1) := by
  induction fuel generalizing k b with
  | zero =>
    obtain rfl : b = 0 := by omega
    simp [readLoop, freadBytes]
  | succ fuel ih =>
    cases b with
    | zero => simp [readLoop, freadBytes]
    | succ b =>
      cases he : (w.fread k (b + 1)).2 with
      | true =>
        rw [readLoop_succ_error w fuel k b he]
        simp [Event.isFread, List.countP_cons]
      | false =>
        rw [readLoop_succ_read w fuel k b he]
        have hp : 0 < (w.fread k (b + 1)).1 := by
          rcases hw k (b + 1) (by omega) with h | h
          · exact h
          · rw [he] at h
            exact Bool.noConfusion h
        obtain ⟨h1, h2, h3, h4⟩ := ih (k + 1) (b + 1 - min (w.fread k (b + 1)).1 (b + 1))
          (by omega)
        refine ⟨h1, ?_, ?_, ?_⟩
        · simp only [List.countP_cons, Event.isFread]
          simp only [if_true]
          omega
        · intro hfill
          simp only [freadBytes, h3 hfill]
          omega
        · intro hfail
          exact List.mem_cons_of_mem _ (h4 hfail)

/-- When `fread` keeps returning 0 without error, the read loop repeats the
same call for as long as it is allowed to run. -/
theorem readLoop_spins (w : World) (k b : Nat) (hb : 0 < b)
    (hw : ∀ j, k ≤ j → w.fread j b = (0, false)) (fuel : Nat) :
    (readLoop w fuel k b : List (Event F) × LoopResult) =
      (List.replicate fuel (.fread b 0), .unfinished) := by
  obtain ⟨b, rfl⟩ : ∃ c, b = c + 1 := ⟨b - 1, by omega⟩
  induction fuel generalizing k with
  | zero => simp [readLoop]
  | succ fuel ih =>
    have h0 := hw k (le_refl k)
    rw [readLoop_succ_read w fuel k b (by rw [h0])]
    rw [h0]
    simp only [Nat.zero_min, Nat.sub_zero]
    rw [ih (k + 1) (fun j hj => hw j (by omega))]
    simp [List.replicate_succ]

theorem bytesLeftAfter_zero (w : World) (k j : Nat) : bytesLeftAfter w k 0 j = 0 := by
  induction j generalizing k with
  | zero => rfl
  | succ j ih => simp [bytesLeftAfter, ih]

/-- The read loop ends with the `fread` diagnostic exactly when one of the
calls of `fread` it makes leaves the error indicator set. -/
theorem readLoop_failed_iff (w : World) (fuel k b : Nat) :
    (readLoop (F := F) w fuel k b).2 = .failed ↔
      ∃ j, j < fuel ∧ 0 < bytesLeftAfter w k b j
        ∧ (w.fread (k + j) (bytesLeftAfter w k b j)).2 = true
        ∧ ∀ i, i < j → (w.fread (k + i) (bytesLeftAfter w k b i)).2 = false := by
  induction fuel generalizing k b with
  | zero =>
    constructor
    · intro h
      cases b <;> simp [readLoop] at h
    · rintro ⟨j, hj, -⟩
      omega
  | succ fuel ih =>
    cases b with
    | zero =>
      constructor
      · intro h
        simp [readLoop] at h
      · rintro ⟨j, -, hpos, -⟩
        rw [bytesLeftAfter_zero] at hpos
        omega
    | succ b =>
      cases he : (w.fread k (b + 1)).2 with
      | true =>
        rw [readLoop_succ_error w fuel k b he]
        simp only [true_iff]
        refine ⟨0, by omega, ?_, ?_, ?_⟩
        · simp [bytesLeftAfter]
        · simpa [bytesLeftAfter] using he
        · intro i hi
          omega
      | false =>
        rw [readLoop_succ_read w fuel k b he]
        rw [ih (k + 1) (b + 1 - min (w.fread k (b + 1)).1 (b + 1))]
        constructor
        · rintro ⟨j, hj, hpos, herr, hbefore⟩
          refine ⟨j + 1, by omega, ?_, ?_, ?_⟩
          · simpa [bytesLeftAfter] using hpos
          · rw [show k + (j + 1) = k + 1 + j by omega]
            simpa [bytesLeftAfter] using herr
          · intro i hi
            cases i with
            | zero => simpa [bytesLeftAfter] using he
            | succ i =>
              rw [show k + (i + 1) = k + 1 + i by omega]
              simpa [bytesLeftAfter] using hbefore i (by omega)
        · rintro ⟨j, hj, hpos, herr, hbefore⟩
          cases j with
          | zero =>
            simp only [bytesLeftAfter, Nat.add_zero] at herr
            rw [he] at herr
            exact Bool.noConfusion herr
          | succ j =>
            refine ⟨j, by omega, ?_, ?_, ?_⟩
            · simpa [bytesLeftAfter] using hpos
            · rw [show k + (j + 1) = k + 1 + j by omega] at herr
              simpa [bytesLeftAfter] using herr
            · intro i hi
              have := hbefore (i + 1) (by omega)
              rw [show k + (i + 1) = k + 1 + i by omega] at this
              simpa [bytesLeftAfter] using this

/-- C10: if every call of `fread` returns at least one byte or sets the error
indicator, the read loop started on `dataLen` bytes ends within `dataLen`
iterations, either with `bytesLeft = 0` and exactly `dataLen` bytes read in
total, or on `ferror` with the diagnostic, in which case `readInputData`
returns `NULL`.  The loop ends on `ferror` exactly when one of the calls of
`fread` it makes leaves the error indicator set; when no call does, the
buffer is filled.  If instead `fread` returns 0 with the error indicator
clear while bytes are still missing, every further iteration repeats the same
call and the loop never ends, whatever the number of iterations it is
given. -/
theorem C10_read_loop :
    (∀ (w : World) (dataLen fuel : Nat), FreadProgress w → dataLen ≤ fuel →
      (readLoop (F := F) w fuel 0 dataLen).2 ≠ .unfinished
      ∧ (readLoop (F := F) w fuel 0 dataLen).1.countP Event.isFread ≤ dataLen
      ∧ ((readLoop (F := F) w fuel 0 dataLen).2 = .filled →
          freadBytes (readLoop (F := F) w fuel 0 dataLen).1 = dataLen
          ∧ (w.malloc dataLen = true →
              (readInputDataBody (F := F) w fuel dataLen).2 = .data (dataLen % 2 ^ 32)))
      ∧ ((readLoop (F := F) w fuel 0 dataLen).2 = .failed →
          Event.err Msg.errFread ∈ (readLoop (F := F) w fuel 0 dataLen).1
          ∧ (readInputDataBody (F := F) w fuel dataLen).2 = .null)
      ∧ ((readLoop (F := F) w fuel 0 dataLen).2 = .failed ↔
          ∃ j, j < fuel ∧ 0 < bytesLeftAfter w 0 dataLen j
            ∧ (w.fread j (bytesLeftAfter w 0 dataLen j)).2 = true
            ∧ ∀ i, i < j → (w.fread i (bytesLeftAfter w 0 dataLen i)).2 = false)
      ∧ ((∀ j, j < fuel → (w.fread j (bytesLeftAfter w 0 dataLen j)).2 = false) →
          (readLoop (F := F) w fuel 0 dataLen).2 = .filled
          ∧ freadBytes (readLoop (F := F) w fuel 0 dataLen).1 = dataLen))
    ∧ (∀ (w : World) (k bytesLeft : Nat), 0 < bytesLeft →
      (∀ j, k ≤ j → w.fread j bytesLeft = (0, false)) →
      ∀ fuel, readLoop (F := F) w fuel k bytesLeft =
        (List.replicate fuel (.fread bytesLeft 0), .unfinished)) := by
  refine ⟨?_, fun w k b hb hw fuel => readLoop_spins w k b hb hw fuel⟩
  intro w dataLen fuel hw hle
  obtain ⟨h1, h2, h3, h4⟩ := readLoop_terminates (F := F) w hw fuel 0 dataLen hle
  have hiff : (readLoop (F := F) w fuel 0 dataLen).2 = .failed ↔
      ∃ j, j < fuel ∧ 0 < bytesLeftAfter w 0 dataLen j
        ∧ (w.fread j (bytesLeftAfter w 0 dataLen j)).2 = true
        ∧ ∀ i, i < j → (w.fread i (bytesLeftAfter w 0 dataLen i)).2 = false := by
    simpa using readLoop_failed_iff (F := F) w fuel 0 dataLen
  have hclean : (∀ j, j < fuel → (w.fread j (bytesLeftAfter w 0 dataLen j)).2 = false) →
      (readLoop (F := F) w fuel 0 dataLen).2 = .filled
      ∧ freadBytes (readLoop (F := F) w fuel 0 dataLen).1 = dataLen := by
    intro hno
    have hfilled : (readLoop (F := F) w fuel 0 dataLen).2 = .filled := by
      cases hres : (readLoop (F := F) w fuel 0 dataLen).2 with
      | filled => rfl
      | unfinished => exact absurd hres h1
      | failed =>
        obtain ⟨j, hj, -, herr, -⟩ := hiff.mp hres
        rw [hno j hj] at herr
        exact Bool.noConfusion herr
    exact ⟨hfilled, h3 hfilled⟩
  refine ⟨h1, h2, fun hf => ⟨h3 hf, fun hm => ?_⟩, fun hf => ⟨h4 hf, ?_⟩, hiff, hclean⟩
  · apply readInputDataBody_cases w fuel dataLen (fun r => r.2 = .data (dataLen % 2 ^ 32))
    · intro hm2
      rw [hm] at hm2
      exact Bool.noConfusion hm2
    · intro _ hl
      rw [hf] at hl
      exact LoopResult.noConfusion hl
    · intro _ hl
      rw [hf] at hl
      exact LoopResult.noConfusion hl
    · intro _ _
      rfl
  · apply readInputDataBody_cases w fuel dataLen (fun r => r.2 = .null)
    · intro _
      rfl
    · intro _ _
      rfl
    · intro _ hl
      rw [hf] at hl
      exact LoopResult.noConfusion hl
    · intro _ hl
      rw [hf] at hl
      exact LoopResult.noConfusion hl

theorem C10_read_loop_witness :
    (readLoop (F := ℚ) okWorld 7 0 7).2 = .filled
    ∧ freadBytes (readLoop (F := ℚ) okWorld 7 0 7).1 = 7
    ∧ ((readLoop (F := ℚ) errorWorld 7 0 7).2 = .failed ↔
        ∃ j, j < 7 ∧ 0 < bytesLeftAfter errorWorld 0 7 j
          ∧ (errorWorld.fread j (bytesLeftAfter errorWorld 0 7 j)).2 = true
          ∧ ∀ i, i < j → (errorWorld.fread i (bytesLeftAfter errorWorld 0 7 i)).2 = false)
    ∧ (readLoop (F := ℚ) errorWorld 7 0 7).2 = .failed
    ∧ readLoop (F := ℚ) shortWorld 1000 1 4076 =
        (List.replicate 1000 (.fread 4076 0), .unfinished) :=
  ⟨(((C10_read_loop (F := ℚ)).1 okWorld 7 7 (fun _ _ hn => Or.inl hn) (le_refl 7)).2.2.2.2.2
      (fun _ _ => rfl)).1,
    (((C10_read_loop (F := ℚ)).1 okWorld 7 7 (fun _ _ hn => Or.inl hn) (le_refl 7)).2.2.2.2.2
      (fun _ _ => rfl)).2,
    ((C10_read_loop (F := ℚ)).1 errorWorld 7 7
      (fun k _ _ => by
        by_cases hk : k = 0
        · exact Or.inl (by simp [errorWorld, hk])
        · exact Or.inr (by simp [errorWorld, hk]))
      (le_refl 7)).2.2.2.2.1,
    by decide,
    (C10_read_loop (F := ℚ)).2 shortWorld 1 4076 (by decide)
      (fun j hj => by
        have : j ≠ 0 := by omega
        simp [shortWorld, this]) 1000⟩

/-! ## Runs that reach the benchmark loop -/

/-- The run of `main` when the arguments are right, the graph compiles and
`readInputData` returns a buffer. -/
theorem main_of_data (ops : DoubleOps F) (w : World) (fuel length : Nat)
    (h4 : w.argc = 4) (hc : (w.hs_compile_graph (w.argv 1)).1 = HS_SUCCESS)
    (hr : (readInputData (F := F) w fuel (w.argv 2)).2 = .data length) :
    main ops w fuel =
      ⟨startEvents w ++ (readInputData w fuel (w.argv 2)).1 ++ (mainScan ops w length).trace,
        (mainScan ops w length).exit⟩ := by
  unfold main
  rw [if_neg (by simp [h4])]
  dsimp only
  rw [if_neg (by simp [hc])]
  rw [hr]
  rfl

/-- The scan phase once the scratch space is allocated: the loop, then either
the `return -1` of line 202 or the average line and the clean-up. -/
theorem mainScan_of_scratch (ops : DoubleOps F) (w : World) (length : Nat)
    (ha : w.hs_alloc_scratch = HS_SUCCESS) :
    ((scanLoop ops w length (runsOf w) 0 (ops.ofInt 0)).2 = none →
      mainScan ops w length =
        ⟨scratchEvents ++ (scanLoop ops w length (runsOf w) 0 (ops.ofInt 0)).1, some (-1)⟩)
    ∧ (∀ a, (scanLoop ops w length (runsOf w) 0 (ops.ofInt 0)).2 = some a →
      mainScan ops w length =
        ⟨scratchEvents ++ (scanLoop ops w length (runsOf w) 0 (ops.ofInt 0)).1 ++
          Event.out (Msg.average (ops.div a (ops.ofInt (runsOf w)))) :: cleanupEvents,
          some 0⟩) := by
  constructor
  · intro h
    unfold mainScan
    rw [if_neg (by simp [ha])]
    dsimp only
    rw [h]
    rfl
  · intro a h
    unfold mainScan
    rw [if_neg (by simp [ha])]
    dsimp only
    rw [h]
    rfl

theorem countP_eq_zero_of_forall (p : Event F → Bool) (l : List (Event F))
    (h : ∀ e ∈ l, p e = false) : l.countP p = 0 := by
  rw [List.countP_eq_zero]
  intro e he
  simp [h e he]

theorem timeValues_eq_nil (l : List (Event F)) (h : ∀ e ∈ l, e.isTimeLine = false) :
    timeValues l = [] := by
  have := timeValues_length l
  rw [countP_eq_zero_of_forall _ l h] at this
  exact List.length_eq_zero.mp this

/-- The events of `readInputData` are no calls of `hs_scan` and no timing or
average lines. -/
theorem readInputData_observations (w : World) (fuel : Nat) (inputFN : String) :
    (readInputData (F := F) w fuel inputFN).1.countP Event.isScan = 0
    ∧ (readInputData (F := F) w fuel inputFN).1.countP Event.isTimeLine = 0
    ∧ (readInputData (F := F) w fuel inputFN).1.countP Event.isAverageLine = 0
    ∧ timeValues (readInputData (F := F) w fuel inputFN).1 = []
    ∧ Event.err Msg.errScan ∉ (readInputData (F := F) w fuel inputFN).1 := by
  have h := readInputData_events (F := F) w fuel inputFN
  have key : ∀ (p : Event F → Bool), (∀ e, e.isReadEvent = true → p e = false) →
      ∀ e ∈ (readInputData (F := F) w fuel inputFN).1, p e = false :=
    fun p hp e he => hp e (h e he)
  have hscan : ∀ e : Event F, e.isReadEvent = true → e.isScan = false := by
    intro e
    cases e <;> simp [Event.isReadEvent, Event.isScan]
  have htime : ∀ e : Event F, e.isReadEvent = true → e.isTimeLine = false := by
    intro e
    cases e with
    | out m => cases m <;> simp [Event.isReadEvent, Event.isTimeLine]
    | _ => simp [Event.isTimeLine]
  have havg : ∀ e : Event F, e.isReadEvent = true → e.isAverageLine = false := by
    intro e
    cases e with
    | out m => cases m <;> simp [Event.isReadEvent, Event.isAverageLine]
    | _ => simp [Event.isAverageLine]
  refine ⟨countP_eq_zero_of_forall _ _ (key _ hscan), countP_eq_zero_of_forall _ _ (key _ htime),
    countP_eq_zero_of_forall _ _ (key _ havg), timeValues_eq_nil _ (key _ htime), ?_⟩
  intro he
  have := h _ he
  simp [Event.isReadEvent] at this

/-- In exact arithmetic the left-to-right sum the loop computes is the sum of
the list, so the value of the average line is the arithmetic mean. -/
theorem ratOps_foldl_add (l : List ℚ) (acc : ℚ) : l.foldl ratOps.add acc = acc + l.sum := by
  induction l generalizing acc with
  | nil => simp
  | cons x l ih =>
    rw [List.foldl_cons, ih, List.sum_cons]
    show acc + x + l.sum = acc + (x + l.sum)
    ring

/-! ## The benchmark loop inside `main` -/

/-- C6: let `n` be the run count parsed from the third argument, that is the
value of `atoi(argv[3])` converted to `unsigned int`.  When the run reaches
the benchmark loop and each of the `n` scans succeeds, `main` calls `hs_scan`
exactly `n` times and prints exactly `n` "Time elapsed in ms" lines, then one
"Average time elapsed in ms" line whose value is the sum of the printed
elapsed values, added from left to right starting from 0, divided by `n`; it
then returns 0. -/
theorem C6_all_runs_succeed (ops : DoubleOps F) (w : World) (fuel length n : Nat)
    (hn : (n : Int) = w.atoi (w.argv 3) % 2 ^ 32)
    (h4 : w.argc = 4) (hc : (w.hs_compile_graph (w.argv 1)).1 = HS_SUCCESS)
    (hr : (readInputData (F := F) w fuel (w.argv 2)).2 = .data length)
    (ha : w.hs_alloc_scratch = HS_SUCCESS)
    (hs : ∀ i, i < n → (hs_scan (F := F) w i length).2 = HS_SUCCESS) :
    (∃ pre : List (Event F),
      (main ops w fuel).trace = pre ++
        Event.out (Msg.average
          (ops.div ((timeValues pre).foldl ops.add (ops.ofInt 0)) (ops.ofInt n))) ::
        cleanupEvents
      ∧ pre.countP Event.isScan = n
      ∧ pre.countP Event.isTimeLine = n
      ∧ (timeValues pre).length = n
      ∧ pre.countP Event.isAverageLine = 0)
    ∧ (main ops w fuel).trace.countP Event.isScan = n
    ∧ (main ops w fuel).trace.countP Event.isTimeLine = n
    ∧ (main ops w fuel).trace.countP Event.isAverageLine = 1
    ∧ (main ops w fuel).exit = some 0
    ∧ runsOf w = n := by
  have hrun : runsOf w = n := by
    unfold runsOf
    omega
  subst hrun
  refine (fun (h : _ ∧ _ ∧ _ ∧ _ ∧ _) => ⟨h.1, h.2.1, h.2.2.1, h.2.2.2.1, h.2.2.2.2, rfl⟩) ?_
  obtain ⟨⟨a, hsome⟩, hscan, htime, havg⟩ :=
    scanLoop_all_succeed ops w length (runsOf w) 0 (ops.ofInt 0)
      (fun j hj => by simpa using hs j hj)
  have hsum := scanLoop_sum ops w length (runsOf w) 0 (ops.ofInt 0) a hsome
  obtain ⟨r1, r2, r3, r4, -⟩ := readInputData_observations (F := F) w fuel (w.argv 2)
  have hpre : ∃ pre : List (Event F),
      (main ops w fuel).trace = pre ++
        Event.out (Msg.average
          (ops.div ((timeValues pre).foldl ops.add (ops.ofInt 0)) (ops.ofInt (runsOf w)))) ::
        cleanupEvents
      ∧ pre.countP Event.isScan = runsOf w
      ∧ pre.countP Event.isTimeLine = runsOf w
      ∧ (timeValues pre).length = runsOf w
      ∧ pre.countP Event.isAverageLine = 0 := by
    refine ⟨startEvents w ++ (readInputData w fuel (w.argv 2)).1 ++ scratchEvents ++
      (scanLoop ops w length (runsOf w) 0 (ops.ofInt 0)).1, ?_, ?_, ?_, ?_, ?_⟩
    · rw [main_of_data ops w fuel length h4 hc hr, (mainScan_of_scratch ops w length ha).2 a hsome]
      have ht : timeValues (startEvents w ++ (readInputData w fuel (w.argv 2)).1 ++
          scratchEvents ++ (scanLoop ops w length (runsOf w) 0 (ops.ofInt 0)).1) =
          timeValues (scanLoop ops w length (runsOf w) 0 (ops.ofInt 0)).1 := by
        simp only [timeValues_append, r4]
        simp [startEvents, scratchEvents, timeValues]
      rw [ht, ← hsum]
      simp
    · simp only [List.countP_append, r1, hscan]
      simp [startEvents, scratchEvents, Event.isScan, List.countP_cons]
    · simp only [List.countP_append, r2, htime]
      simp [startEvents, scratchEvents, Event.isTimeLine, List.countP_cons]
    · rw [timeValues_length]
      simp only [List.countP_append, r2, htime]
      simp [startEvents, scratchEvents, Event.isTimeLine, List.countP_cons]
    · simp only [List.countP_append, r3, havg]
      simp [startEvents, scratchEvents, Event.isAverageLine, List.countP_cons]
  refine ⟨hpre, ?_⟩
  obtain ⟨pre, hp, p1, p2, -, p4⟩ := hpre
  refine ⟨?_, ?_, ?_, ?_⟩
  · rw [hp]
    simp only [List.countP_append, List.countP_cons, p1]
    simp [cleanupEvents, Event.isScan]
  · rw [hp]
    simp only [List.countP_append, List.countP_cons, p2]
    simp [cleanupEvents, Event.isTimeLine]
  · rw [hp]
    simp only [List.countP_append, List.countP_cons, p4]
    simp [cleanupEvents, Event.isAverageLine]
  · rw [main_of_data ops w fuel length h4 hc hr, (mainScan_of_scratch ops w length ha).2 a hsome]

theorem C6_all_runs_succeed_witness :
    okWorld.argv 3 = "3"
    ∧ ((3 : Nat) : Int) = okWorld.atoi (okWorld.argv 3) % 2 ^ 32
    ∧ okWorld.atoi (okWorld.argv 2) ≠ okWorld.atoi (okWorld.argv 3)
    ∧ (readInputData (F := ℚ) okWorld 7 (okWorld.argv 2)).2 = .data 7
    ∧ (∀ i, i < 3 → (hs_scan (F := ℚ) okWorld i 7).2 = HS_SUCCESS)
    ∧ (main ratOps okWorld 7).trace.countP Event.isScan = 3
    ∧ (main ratOps okWorld 7).trace.countP Event.isTimeLine = 3
    ∧ (main ratOps okWorld 7).trace.countP Event.isAverageLine = 1 :=
  ⟨by decide, by decide, by decide, by decide, by decide,
    (C6_all_runs_succeed ratOps okWorld 7 7 3 (by decide) (by decide) (by decide) (by decide)
      (by decide) (by decide)).2.1,
    (C6_all_runs_succeed ratOps okWorld 7 7 3 (by decide) (by decide) (by decide) (by decide)
      (by decide) (by decide)).2.2.1,
    (C6_all_runs_succeed ratOps okWorld 7 7 3 (by decide) (by decide) (by decide) (by decide)
      (by decide) (by decide)).2.2.2.1⟩

/-- C5: when the run reaches the benchmark loop, the first `k - 1` scans
succeed and the `k`-th fails (`1 ≤ k ≤ runs`), `main` calls `hs_scan` exactly
`k` times, prints exactly `k - 1` "Time elapsed in ms" lines and no "Average
time elapsed in ms" line, writes the scan diagnostic to standard error and
returns -1. -/
theorem C5_first_scan_failure (ops : DoubleOps F) (w : World) (fuel length k : Nat)
    (h4 : w.argc = 4) (hc : (w.hs_compile_graph (w.argv 1)).1 = HS_SUCCESS)
    (hr : (readInputData (F := F) w fuel (w.argv 2)).2 = .data length)
    (ha : w.hs_alloc_scratch = HS_SUCCESS)
    (hk1 : 1 ≤ k) (hkn : k ≤ runsOf w)
    (hs : ∀ j, j < k - 1 → (hs_scan (F := F) w j length).2 = HS_SUCCESS)
    (hf : (hs_scan (F := F) w (k - 1) length).2 ≠ HS_SUCCESS) :
    (main ops w fuel).trace.countP Event.isScan = k
    ∧ (main ops w fuel).trace.countP Event.isTimeLine = k - 1
    ∧ (main ops w fuel).trace.countP Event.isAverageLine = 0
    ∧ Event.err Msg.errScan ∈ (main ops w fuel).trace
    ∧ (main ops w fuel).exit = some (-1) := by
  obtain ⟨hnone, hscan, htime, havg, herr⟩ :=
    scanLoop_first_failure ops w length (runsOf w) 0 (k - 1) (ops.ofInt 0) (by omega)
      (fun j hj => by simpa using hs j hj) (by simpa using hf)
  obtain ⟨r1, r2, r3, -, -⟩ := readInputData_observations (F := F) w fuel (w.argv 2)
  rw [main_of_data ops w fuel length h4 hc hr, (mainScan_of_scratch ops w length ha).1 hnone]
  refine ⟨?_, ?_, ?_, ?_, rfl⟩
  · simp only [List.countP_append, r1, hscan]
    simp [startEvents, scratchEvents, Event.isScan, List.countP_cons]
    omega
  · simp only [List.countP_append, r2, htime]
    simp [startEvents, scratchEvents, Event.isTimeLine, List.countP_cons]
  · simp only [List.countP_append, r3, havg]
    simp [startEvents, scratchEvents, Event.isAverageLine, List.countP_cons]
  · simp only [List.mem_append]
    exact Or.inr (Or.inr herr)

theorem C5_first_scan_failure_witness :
    (readInputData (F := ℚ) scanFailWorld 7 (scanFailWorld.argv 2)).2 = .data 7
    ∧ 2 ≤ runsOf scanFailWorld
    ∧ (∀ j, j < 2 - 1 → (hs_scan (F := ℚ) scanFailWorld j 7).2 = HS_SUCCESS)
    ∧ (hs_scan (F := ℚ) scanFailWorld (2 - 1) 7).2 ≠ HS_SUCCESS
    ∧ (main ratOps scanFailWorld 7).trace.countP Event.isScan = 2
    ∧ (main ratOps scanFailWorld 7).exit = some (-1) :=
  ⟨by decide, by decide, by decide, by decide,
    (C5_first_scan_failure ratOps scanFailWorld 7 7 2 (by decide) (by decide) (by decide)
      (by decide) (by decide) (by decide) (by decide) (by decide)).1,
    (C5_first_scan_failure ratOps scanFailWorld 7 7 2 (by decide) (by decide) (by decide)
      (by decide) (by decide) (by decide) (by decide) (by decide)).2.2.2.2⟩

/-! ## Resources -/

/-- Only acquisitions and releases matter for the resources held. -/
theorem held_filter (l : List (Event F)) (hs : List Resource) :
    held l hs = held (l.filter Event.isResourceEvent) hs := by
  induction l generalizing hs with
  | nil => rfl
  | cons e l ih =>
    cases e with
    | acquire r =>
      simp only [List.filter_cons, Event.isResourceEvent, if_true, held]
      split_ifs
      · rfl
      · exact ih _
    | release r =>
      simp only [List.filter_cons, Event.isResourceEvent, if_true, held]
      split_ifs
      · exact ih _
      · rfl
    | _ => simpa [held, Event.isResourceEvent, List.filter_cons] using ih hs

theorem filter_hs_scan (w : World) (k length : Nat) :
    (hs_scan (F := F) w k length).1.filter Event.isResourceEvent = [] := by
  rw [hs_scan_eq, List.filter_eq_nil_iff]
  intro e he
  simp only [List.mem_cons, List.mem_map] at he
  rcases he with rfl | ⟨_, _, rfl⟩ <;> simp [Event.isResourceEvent]

/-- The benchmark loop touches the resources only when a scan fails, and then
it releases the scratch space, the buffer and the database. -/
theorem filter_scanLoop (ops : DoubleOps F) (w : World) (length n i : Nat) (acc : F) :
    (scanLoop ops w length n i acc).1.filter Event.isResourceEvent =
      if (scanLoop ops w length n i acc).2.isNone then cleanupEvents else [] := by
  induction n generalizing i acc with
  | zero => simp [scanLoop]
  | succ n ih =>
    by_cases hf : (hs_scan (F := F) w i length).2 ≠ HS_SUCCESS
    · rw [scanLoop_succ_failure ops w length n i acc hf]
      simp [List.filter_cons, filter_hs_scan, Event.isResourceEvent, cleanupEvents]
    · rw [scanLoop_succ_success ops w length n i acc (by simpa using hf)]
      simp only [List.cons_append, List.filter_cons, List.filter_append, filter_hs_scan,
        Event.isResourceEvent, List.filter_nil, List.nil_append]
      simpa using ih _ _

/-- The read loop touches the resources only on `ferror`, and then it frees
the buffer and closes the file. -/
theorem filter_readLoop (w : World) (fuel k b : Nat) :
    (readLoop (F := F) w fuel k b).1.filter Event.isResourceEvent =
      if (readLoop (F := F) w fuel k b).2 = .failed then
        [.release .inputData, .release .file]
      else [] := by
  induction fuel generalizing k b with
  | zero => cases b <;> simp [readLoop]
  | succ fuel ih =>
    cases b with
    | zero => simp [readLoop]
    | succ b =>
      cases he : (w.fread k (b + 1)).2 with
      | true =>
        rw [readLoop_succ_error w fuel k b he]
        simp [List.filter_cons, Event.isResourceEvent]
      | false =>
        rw [readLoop_succ_read w fuel k b he]
        simp only [List.filter_cons, Event.isResourceEvent]
        simpa using ih _ _

theorem filter_readHeader (w : World) (inputFN : String) :
    (readHeader (F := F) w inputFN).filter Event.isResourceEvent = [.acquire .file] := by
  unfold readHeader
  split_ifs <;> simp [List.filter_cons, Event.isResourceEvent]

/-- C7: on every path through `main` and through `readInputData` no resource
is released that is not held and none is acquired twice, and when the function
returns it holds nothing any more, except that a successful `readInputData`
hands the buffer to its caller.  (While the read loop is still running, the
buffer and the file, and in `main` the database, are held.) -/
theorem C7_resource_safety (ops : DoubleOps F) (w : World) (fuel : Nat) (inputFN : String) :
    held (main ops w fuel).trace [] =
      some (match (main ops w fuel).exit with
        | some _ => []
        | none => [.inputData, .file, .database])
    ∧ held (readInputData (F := F) w fuel inputFN).1 [] =
      some (match (readInputData (F := F) w fuel inputFN).2 with
        | .null => []
        | .data _ => [.inputData]
        | .unfinished => [.inputData, .file]) := by
  constructor
  · rw [held_filter]
    apply main_paths ops w fuel (fun r => held (r.trace.filter Event.isResourceEvent) [] =
      some (match r.exit with
        | some _ => []
        | none => [Resource.inputData, Resource.file, Resource.database]))
    case hfailed =>
      intro _ _ _ _ _ _ _ hl
      simp only [readEvents, List.filter_append, filter_readHeader]
      simp [List.filter_cons, List.filter_append, filter_readHeader, filter_readLoop, hl,
        startEvents, Event.isResourceEvent, held]
    case hunfinished =>
      intro _ _ _ _ _ _ _ hl
      simp only [readEvents, List.filter_append, filter_readHeader]
      simp [List.filter_cons, List.filter_append, filter_readHeader, filter_readLoop, hl,
        startEvents, Event.isResourceEvent, held]
    case hscratch =>
      intro _ _ _ _ _ _ _ hl _
      simp only [readEvents, List.filter_append, filter_readHeader]
      simp [List.filter_cons, List.filter_append, filter_readHeader, filter_readLoop, hl,
        startEvents, readEvents, Event.isResourceEvent, held]
    case hscan =>
      intro _ _ _ _ _ _ _ hl _ hb
      unfold benchLoop at hb ⊢
      have hb2 : (scanLoop ops w (clippedLen w % 2 ^ 32) (runsOf w) 0 (ops.ofInt 0)).1.filter
          Event.isResourceEvent = cleanupEvents := by
        rw [filter_scanLoop, hb]
        rfl
      simp only [readEvents, List.filter_append, filter_readHeader, hb2]
      simp [List.filter_cons, List.filter_append, filter_readHeader, filter_readLoop, hl,
        startEvents, readEvents, scratchEvents, cleanupEvents, Event.isResourceEvent, held]
    case hdone =>
      intro a _ _ _ _ _ _ _ hl _ hb
      unfold benchLoop at hb ⊢
      have hb2 : (scanLoop ops w (clippedLen w % 2 ^ 32) (runsOf w) 0 (ops.ofInt 0)).1.filter
          Event.isResourceEvent = [] := by
        rw [filter_scanLoop, hb]
        rfl
      simp only [readEvents, List.filter_append, filter_readHeader, hb2]
      simp [List.filter_cons, List.filter_append, filter_readHeader, filter_readLoop, hl,
        startEvents, readEvents, scratchEvents, cleanupEvents, Event.isResourceEvent, held]
    all_goals
      intros
      simp only [readEvents, List.filter_append, filter_readHeader]
      simp [List.filter_cons, List.filter_append, filter_readHeader, startEvents,
        Event.isResourceEvent, held]
  · rw [held_filter]
    apply readInputData_paths w fuel inputFN
      (fun r => held (r.1.filter Event.isResourceEvent) [] =
      some (match r.2 with
        | .null => []
        | .data _ => [Resource.inputData]
        | .unfinished => [Resource.inputData, Resource.file]))
    case hfailed =>
      intro _ _ _ _ _ hl
      simp only [readEvents, List.filter_append, filter_readHeader]
      simp [List.filter_cons, List.filter_append, filter_readHeader, filter_readLoop, hl,
        Event.isResourceEvent, held]
    case hunfinished =>
      intro _ _ _ _ _ hl
      simp only [readEvents, List.filter_append, filter_readHeader]
      simp [List.filter_cons, List.filter_append, filter_readHeader, filter_readLoop, hl,
        Event.isResourceEvent, held]
    case hfilled =>
      intro _ _ _ _ _ hl
      simp only [readEvents, List.filter_append, filter_readHeader]
      simp [List.filter_cons, List.filter_append, filter_readHeader, filter_readLoop, hl,
        Event.isResourceEvent, held]
    all_goals
      intros
      simp only [readEvents, List.filter_append, filter_readHeader]
      simp [List.filter_cons, List.filter_append, filter_readHeader, Event.isResourceEvent, held]

/-! ## The return value of `main` -/

theorem scanLoop_some_imp (ops : DoubleOps F) (w : World) (length n i : Nat) (acc a : F)
    (h : (scanLoop ops w length n i acc).2 = some a) :
    ∀ j, j < n → (hs_scan (F := F) w (i + j) length).2 = HS_SUCCESS := by
  induction n generalizing i acc with
  | zero =>
    intro j hj
    omega
  | succ n ih =>
    by_cases hf : (hs_scan (F := F) w i length).2 ≠ HS_SUCCESS
    · rw [scanLoop_succ_failure ops w length n i acc hf] at h
      exact Option.noConfusion h
    · have h0 : (hs_scan (F := F) w i length).2 = HS_SUCCESS := by simpa using hf
      rw [scanLoop_succ_success ops w length n i acc h0] at h
      intro j hj
      cases j with
      | zero => simpa using h0
      | succ j =>
        have := ih (i + 1) _ h j (by omega)
        rwa [show i + 1 + j = i + (j + 1) by omega] at this

theorem main_exit_of_usage (ops : DoubleOps F) (w : World) (fuel : Nat) (h4 : w.argc ≠ 4) :
    (main ops w fuel).exit = some (-1) := by
  unfold main
  rw [if_pos h4]

theorem main_exit_of_compile_failure (ops : DoubleOps F) (w : World) (fuel : Nat)
    (h4 : w.argc = 4) (hc : (w.hs_compile_graph (w.argv 1)).1 ≠ HS_SUCCESS) :
    (main ops w fuel).exit = some (-1) := by
  unfold main
  rw [if_neg (by simp [h4])]
  dsimp only
  rw [if_pos hc]

theorem main_exit_of_null (ops : DoubleOps F) (w : World) (fuel : Nat)
    (h4 : w.argc = 4) (hc : (w.hs_compile_graph (w.argv 1)).1 = HS_SUCCESS)
    (hr : (readInputData (F := F) w fuel (w.argv 2)).2 = .null) :
    (main ops w fuel).exit = some (-1) := by
  unfold main
  rw [if_neg (by simp [h4])]
  dsimp only
  rw [if_neg (by simp [hc])]
  rw [hr]

theorem main_exit_of_unfinished (ops : DoubleOps F) (w : World) (fuel : Nat)
    (h4 : w.argc = 4) (hc : (w.hs_compile_graph (w.argv 1)).1 = HS_SUCCESS)
    (hr : (readInputData (F := F) w fuel (w.argv 2)).2 = .unfinished) :
    (main ops w fuel).exit = none := by
  unfold main
  rw [if_neg (by simp [h4])]
  dsimp only
  rw [if_neg (by simp [hc])]
  rw [hr]

theorem mainScan_exit_of_no_scratch (ops : DoubleOps F) (w : World) (length : Nat)
    (ha : w.hs_alloc_scratch ≠ HS_SUCCESS) : (mainScan ops w length).exit = some (-1) := by
  unfold mainScan
  rw [if_pos ha]

/-- The return value of `main` is 0 exactly when the argument count is 4, the
graph compiles, `readInputData` returns a buffer, the scratch space is
allocated and every scan of the loop succeeds. -/
theorem main_returns_zero_iff (ops : DoubleOps F) (w : World) (fuel : Nat) :
    (main ops w fuel).exit = some 0 ↔
      w.argc = 4 ∧ (w.hs_compile_graph (w.argv 1)).1 = HS_SUCCESS
      ∧ ∃ length, (readInputData (F := F) w fuel (w.argv 2)).2 = .data length
        ∧ w.hs_alloc_scratch = HS_SUCCESS
        ∧ ∀ i, i < runsOf w → (hs_scan (F := F) w i length).2 = HS_SUCCESS := by
  by_cases h4 : w.argc = 4
  swap
  · rw [main_exit_of_usage ops w fuel h4]
    simp [h4]
  by_cases hc : (w.hs_compile_graph (w.argv 1)).1 = HS_SUCCESS
  swap
  · rw [main_exit_of_compile_failure ops w fuel h4 hc]
    simp [hc]
  cases hr : (readInputData (F := F) w fuel (w.argv 2)).2 with
  | null =>
    rw [main_exit_of_null ops w fuel h4 hc hr]
    simp
  | unfinished =>
    rw [main_exit_of_unfinished ops w fuel h4 hc hr]
    simp
  | data length =>
    rw [main_of_data ops w fuel length h4 hc hr]
    by_cases ha : w.hs_alloc_scratch = HS_SUCCESS
    swap
    · rw [mainScan_exit_of_no_scratch ops w length ha]
      simp [ha]
    cases hl : (scanLoop ops w length (runsOf w) 0 (ops.ofInt 0)).2 with
    | none =>
      rw [(mainScan_of_scratch ops w length ha).1 hl]
      have : ¬ ∀ i, i < runsOf w → (hs_scan (F := F) w i length).2 = HS_SUCCESS := by
        intro hall
        obtain ⟨⟨a, hsome⟩, -⟩ := scanLoop_all_succeed ops w length (runsOf w) 0 (ops.ofInt 0)
          (fun j hj => by simpa using hall j hj)
        rw [hl] at hsome
        exact Option.noConfusion hsome
      simp [h4, hc, ha, this]
    | some a =>
      rw [(mainScan_of_scratch ops w length ha).2 a hl]
      have hall : ∀ i, i < runsOf w → (hs_scan (F := F) w i length).2 = HS_SUCCESS := by
        intro i hi
        simpa using scanLoop_some_imp ops w length (runsOf w) 0 (ops.ofInt 0) a hl i hi
      simp only [true_iff]
      exact ⟨h4, hc, length, rfl, ha, hall⟩

/-- Whenever `main` returns, it returns 0 or -1; it does not return only if
the read loop of `readInputData` has not ended. -/
theorem main_exit_cases (ops : DoubleOps F) (w : World) (fuel : Nat) :
    (main ops w fuel).exit = some 0 ∨ (main ops w fuel).exit = some (-1)
    ∨ ((main ops w fuel).exit = none
        ∧ (readLoop (F := F) w fuel 0 (clippedLen w)).2 = .unfinished) := by
  apply main_paths ops w fuel (fun r => r.exit = some 0 ∨ r.exit = some (-1)
    ∨ (r.exit = none ∧ (readLoop (F := F) w fuel 0 (clippedLen w)).2 = .unfinished))
  case hunfinished =>
    intro _ _ _ _ _ _ _ hl
    exact Or.inr (Or.inr ⟨rfl, hl⟩)
  case hdone =>
    intros
    exact Or.inl rfl
  all_goals
    intros
    exact Or.inr (Or.inl rfl)

/-- With progress at every call of `fread` and a budget of at least the
buffer size, `main` returns. -/
theorem main_returns_of_progress (ops : DoubleOps F) (w : World) (fuel : Nat)
    (hw : FreadProgress w) (hfuel : clippedLen w ≤ fuel) :
    (main ops w fuel).exit = some 0 ∨ (main ops w fuel).exit = some (-1) := by
  rcases main_exit_cases ops w fuel with h | h | ⟨-, h⟩
  · exact Or.inl h
  · exact Or.inr h
  · exact absurd h (readLoop_terminates (F := F) w hw fuel 0 (clippedLen w) hfuel).1

/-- C1 fails on this run: the input file ends before the size `ftell`
reported, `fread` returns 0 without setting the error indicator, and `main`
never returns, whatever the number of iterations the read loop is given; it
neither returns 0 nor -1. -/
theorem C1_short_read_never_returns (fuel : Nat) :
    (main ratOps shortWorld fuel).exit = none
    ∧ (readInputData (F := ℚ) shortWorld fuel "in.txt").2 = .unfinished
    ∧ shortWorld.argc = 4
    ∧ (shortWorld.hs_compile_graph (shortWorld.argv 1)).1 = HS_SUCCESS
    ∧ shortWorld.hs_alloc_scratch = HS_SUCCESS := by
  have hloop : (readLoop (F := ℚ) shortWorld fuel 0 4096).2 = .unfinished := by
    cases fuel with
    | zero => rfl
    | succ fuel =>
      rw [readLoop_succ_read shortWorld fuel 0 4095 rfl]
      have := readLoop_spins (F := ℚ) shortWorld 1 4076 (by decide)
        (fun j hj => by
          have : j ≠ 0 := by omega
          simp [shortWorld, this]) fuel
      have h2 : (4095 + 1 - min (shortWorld.fread 0 (4095 + 1)).1 (4095 + 1)) = 4076 := by
        decide
      rw [h2, this]
  have hread : (readInputData (F := ℚ) shortWorld fuel "in.txt").2 = .unfinished := by
    apply readInputData_paths shortWorld fuel "in.txt" (fun r => r.2 = .unfinished)
    case hunfinished =>
      intros
      rfl
    case hfilled =>
      intro _ _ _ _ _ hl
      have : clippedLen shortWorld = 4096 := by decide
      rw [this, hloop] at hl
      exact LoopResult.noConfusion hl
    case hfailed =>
      intro _ _ _ _ _ hl
      have : clippedLen shortWorld = 4096 := by decide
      rw [this, hloop] at hl
      exact LoopResult.noConfusion hl
    case hmalloc =>
      intro _ _ _ _ hm
      exact Bool.noConfusion hm
    case hempty =>
      intro _ _ _ hz
      exact absurd hz (by decide)
    case hopen =>
      intro e h
      exact Option.noConfusion h
    case hseekEnd =>
      intro e _ h
      exact Option.noConfusion h
    case hseekSet =>
      intro e _ _ _ h
      exact Option.noConfusion h
    case hftell =>
      intro _ _ h
      exact absurd h (by decide)
  exact ⟨main_exit_of_unfinished ratOps shortWorld fuel rfl rfl hread, hread, rfl, rfl, rfl⟩

end GraphGrep
